import Mathlib

/-!
Verification of the B-tree engine of the linux-apfs driver
(`fs/apfs/btree.c`), against its natural-language specification.

The development has two layers.

Layer 1 is a byte-exact shallow embedding of the node block used by
`apfs_btree_insert` and `apfs_btree_remove`: the block is a function
`Nat → Nat` holding one byte per offset, and each C statement becomes a
functional update.  The struct offsets come from the spec's authoritative
on-disk layout (the header `btree.h` that declares
`apfs_btree_node_phys`, `apfs_kvoff`, `apfs_kvloc` and `apfs_btree_info`
is not among the sources): object header 32 bytes, then
`btn_flags`(32) `btn_level`(34) `btn_nkeys`(36) `btn_table_space`(40,42)
`btn_free_space`(44,46) `btn_key_free_list`(48,50)
`btn_val_free_list`(52,54) and `btn_data` at 56; a fixed-kv toc slot is
4 bytes `(k,v)`, a variable-kv slot is 8 bytes `(k.off,k.len,v.off,v.len)`;
the root tree-info trailer is the last 40 bytes of the block, with
`bt_longest_key` at `bs-24`, `bt_longest_val` at `bs-20` and
`bt_key_count` at `bs-16`.  The Fletcher checksum and the buffer dirty
bit are modelled as two booleans on the state (`apfs_obj_set_csum` and
`mark_buffer_dirty` set them); their byte content is outside the sources.

Layer 2 is a record-level shallow embedding of the descent loop
`apfs_btree_query`, of `apfs_child_from_query` and of
`apfs_omap_lookup_block`.  A node is a list of records; `apfs_node_query`
(from `node.c`, not among the sources) is modelled from the spec as
"the record with the greatest key less than or equal to the target among
the slots below the query's index"; block reads and the omap resolution
used for non-omap trees are oracles supplied by an environment.  The
loop is written with explicit fuel so that it is executable; a theorem
shows that a fuel computed from the chain measure is always enough.
-/

/-! ## Layer 1: byte-level block model -/

/-- A disk block: one byte (a `Nat` below 256 once written) per offset. -/
def Block : Type := Nat → Nat

/-- Write one byte (C pointer store through a `u8`). -/
def w8 (b : Block) (o v : Nat) : Block :=
  fun i => if i = o then v % 256 else b i

/-- Write a little-endian 16-bit value (`cpu_to_le16` store). -/
def w16 (b : Block) (o v : Nat) : Block :=
  w8 (w8 b o v) (o + 1) (v / 256)

/-- Write a little-endian 32-bit value (`cpu_to_le32` store). -/
def w32 (b : Block) (o v : Nat) : Block :=
  w16 (w16 b o v) (o + 2) (v / 65536)

/-- Write a little-endian 64-bit value (`cpu_to_le64` store). -/
def w64 (b : Block) (o v : Nat) : Block :=
  w32 (w32 b o v) (o + 4) (v / 4294967296)

/-- Read a little-endian 16-bit value (`le16_to_cpu`). -/
def r16 (b : Block) (o : Nat) : Nat :=
  b o + 256 * b (o + 1)

/-- Read a little-endian 32-bit value (`le32_to_cpu`). -/
def r32 (b : Block) (o : Nat) : Nat :=
  r16 b o + 65536 * r16 b (o + 2)

/-- Read a little-endian 64-bit value (`le64_to_cpup`). -/
def r64 (b : Block) (o : Nat) : Nat :=
  r32 b o + 4294967296 * r32 b (o + 4)

/-- The C `le16_add_cpu`: add a (possibly negative) delta to a
little-endian 16-bit field, wrapping modulo 2^16. -/
def le16add (b : Block) (o : Nat) (d : Int) : Block :=
  w16 b o (((r16 b o : Int) + d) % 65536).toNat

/-- The C `le64_add_cpu`: add a delta to a little-endian 64-bit field,
wrapping modulo 2^64. -/
def le64add (b : Block) (o : Nat) (d : Int) : Block :=
  w64 b o (((r64 b o : Int) + d) % 18446744073709551616).toNat

/-- The C `memmove` inside one block: copy `n` bytes from `src` to `dst`.
Functional reading of the source makes the overlap-safety automatic. -/
def memmove (b : Block) (dst src n : Nat) : Block :=
  fun i => if dst ≤ i ∧ i < dst + n then b (src + (i - dst)) else b i

/-- The C `memcpy` from a caller buffer (a byte list) into the block. -/
def wbytes (b : Block) (o : Nat) (l : List Nat) : Block :=
  fun i => if o ≤ i ∧ i < o + l.length then l.getD (i - o) 0 % 256 else b i

/-- In-memory node fields of `struct apfs_node` used by the mutation
surface (modelled from the spec's node view: record count and the
`key`/`free`/`data` base offsets, plus the fixed-kv-size flag). -/
structure NodeMem where
  records : Nat
  key : Nat
  free : Nat
  data : Nat
  fixedKv : Bool

/-- A node buffer: in-memory fields plus the raw block, plus the
checksum-pending and dirty flags of the buffer head. -/
structure NodeState where
  mem : NodeMem
  raw : Block
  dirty : Bool
  csum : Bool

/-- Size of one table-of-contents slot: `sizeof(struct apfs_kvoff)` = 4
for fixed key/value sizes, `sizeof(struct apfs_kvloc)` = 8 otherwise. -/
def tocEntrySize (fixed : Bool) : Nat := if fixed then 4 else 8

/-- Result of `apfs_btree_insert`: success carries the new node state and
the incremented query index; `-ENOSPC` carries the (untouched) state. -/
inductive InsRes where
  | ok (st : NodeState) (idx : Int)
  | noSpace (st : NodeState)

/-- The toc-extension step of `apfs_btree_insert` (lines 337-353): move
the key region up by `inc = 8 * toc_entry_size`, raise the `key` and
`free` bases, grow the recorded toc span and shrink the free span. -/
def growToc (st : NodeState) (tes : Nat) : NodeState :=
  let inc := 8 * tes
  let raw1 := memmove st.raw (st.mem.key + inc) st.mem.key (st.mem.free - st.mem.key)
  let raw2 := le16add raw1 42 (inc : Int)
  let raw3 := le16add raw2 46 (-(inc : Int))
  { st with mem := { st.mem with key := st.mem.key + inc, free := st.mem.free + inc },
            raw := raw3 }

/-- The toc-slot step of `apfs_btree_insert` (lines 358-385): shift the
slots from position `p` on one slot right and write the new slot at `p`.
For fixed kv sizes the slot stores the key offset relative to the key
base and the value length (or the ghost sentinel `0xFFFF`); for variable
kv sizes it stores offset and length of both key and value, the value
offset measured from `block_size - sizeof(struct apfs_btree_info)`.
The shift count `records - p` is a non-negative C `int` whenever the
caller's query index is in range, which the theorems assume. -/
def tocWrite (bs : Nat) (st : NodeState) (p kl vl : Nat) (ghost : Bool) : NodeState :=
  let tes := tocEntrySize st.mem.fixedKv
  let ent := 56 + tes * p
  let cnt := tes * (st.mem.records - p)
  let raw1 := memmove st.raw (ent + tes) ent cnt
  if st.mem.fixedKv then
    let raw2 := w16 raw1 (ent + 2) (if ghost then 65535 else vl)
    let raw3 := w16 raw2 ent (st.mem.free - st.mem.key)
    { st with raw := raw3 }
  else
    let raw2 := w16 raw1 (ent + 4) (bs - st.mem.data - 40 + vl)
    let raw3 := w16 raw2 (ent + 6) vl
    let raw4 := w16 raw3 ent (st.mem.free - st.mem.key)
    let raw5 := w16 raw4 (ent + 2) kl
    { st with raw := raw5 }

/-- The key-append step of `apfs_btree_insert` (lines 388-391): copy the
key bytes at `free`, advance `free`, and adjust the free-space span. -/
def keyAppend (st : NodeState) (keyB : List Nat) : NodeState :=
  let kl := keyB.length
  let raw1 := wbytes st.raw st.mem.free keyB
  let raw2 := le16add raw1 44 (kl : Int)
  let raw3 := le16add raw2 46 (-(kl : Int))
  { st with mem := { st.mem with free := st.mem.free + kl }, raw := raw3 }

/-- The value-prepend step of `apfs_btree_insert` (lines 393-398): copy
the value bytes at `data - val_len`, lower `data`, shrink the free span.
Skipped entirely for a ghost record. -/
def valWrite (st : NodeState) (v : List Nat) : NodeState :=
  let vl := v.length
  let raw1 := wbytes st.raw (st.mem.data - vl) v
  let raw2 := le16add raw1 46 (-(vl : Int))
  { st with mem := { st.mem with data := st.mem.data - vl }, raw := raw2 }

/-- The trailing bookkeeping of `apfs_btree_insert` (lines 400-410):
`bt_key_count += 1`, `btn_nkeys = ++records`, raise `bt_longest_key` and
`bt_longest_val`, recompute the checksum and mark the buffer dirty. -/
def bumpCounters (bs : Nat) (st : NodeState) (kl vl : Nat) : NodeState :=
  let raw1 := le64add st.raw (bs - 16) 1
  let recs := st.mem.records + 1
  let raw2 := w32 raw1 36 recs
  let raw3 := if kl > r32 raw2 (bs - 24) then w32 raw2 (bs - 24) kl else raw2
  let raw4 := if vl > r32 raw3 (bs - 20) then w32 raw3 (bs - 20) vl else raw3
  { st with mem := { st.mem with records := recs }, raw := raw4,
            dirty := true, csum := true }

/-- The mutation body of `apfs_btree_insert` after the space checks:
increment the query index, write the toc slot, append the key, prepend
the value (unless ghost), and bump the counters. -/
def insertCore (bs : Nat) (st : NodeState) (qidx : Int) (keyB : List Nat)
    (val : Option (List Nat)) : NodeState :=
  let kl := keyB.length
  let vl := (val.getD []).length
  let p := (qidx + 1).toNat
  let st1 := tocWrite bs st p kl vl val.isNone
  let st2 := keyAppend st1 keyB
  let st3 := match val with
    | none => st2
    | some v => valWrite st2 v
  bumpCounters bs st3 kl vl

/-- `apfs_btree_insert` (btree.c lines 306-412) on a root-and-leaf node.
`val = none` is a ghost (key-only) record, for which the C callers pass
`val_len = 0`.  Both `-ENOSPC` checks run before any mutation. -/
def apfs_btree_insert (bs : Nat) (st : NodeState) (qidx : Int) (keyB : List Nat)
    (val : Option (List Nat)) : InsRes :=
  let kl := keyB.length
  let vl := (val.getD []).length
  if st.mem.free + kl + vl > st.mem.data then .noSpace st
  else
    let tes := tocEntrySize st.mem.fixedKv
    if 56 + (st.mem.records + 1) * tes > st.mem.key then
      if st.mem.free + 8 * tes + kl + vl > st.mem.data then .noSpace st
      else .ok (insertCore bs (growToc st tes) qidx keyB val) (qidx + 1)
    else .ok (insertCore bs st qidx keyB val) (qidx + 1)

/-- `apfs_btree_remove` (btree.c lines 420-469) on a root-and-leaf node:
shift the later toc entries one slot left, `bt_key_count -= 1`,
`btn_nkeys = --records`, add the freed key and value lengths to the two
free-list heads' length fields, recompute the checksum, mark dirty.
The key and value regions are not compacted. -/
def apfs_btree_remove (bs : Nat) (st : NodeState) (qidx : Int) (qkl qvl : Nat) :
    NodeState :=
  let tes := tocEntrySize st.mem.fixedKv
  let p := qidx.toNat
  let later := st.mem.records - p - 1
  let ent := 56 + tes * p
  let raw1 := memmove st.raw ent (ent + tes) (tes * later)
  let raw2 := le64add raw1 (bs - 16) (-1)
  let recs := st.mem.records - 1
  let raw3 := w32 raw2 36 recs
  let raw4 := le16add raw3 50 (qkl : Int)
  let raw5 := le16add raw4 54 (qvl : Int)
  { st with mem := { st.mem with records := recs }, raw := raw5,
            dirty := true, csum := true }

/-- Structural well-formedness of a root-and-leaf node, from the spec's
layout invariant: header and toc fit below the key base, the key region
ends before the free gap, the value region ends before the 40-byte
tree-info trailer. -/
def NodeWF (bs : Nat) (st : NodeState) : Prop :=
  56 + st.mem.records * tocEntrySize st.mem.fixedKv ≤ st.mem.key ∧
  st.mem.key ≤ st.mem.free ∧
  st.mem.free ≤ st.mem.data ∧
  st.mem.data + 40 ≤ bs

/-! ## Layer 2: record-level model of the descent -/

/-- The in-memory search key `struct apfs_key` (key.h): the omap uses
`(object id, transaction id, type 0)`; the name tiebreaker is not needed
by the claims and is omitted. -/
structure MKey where
  id : Nat
  number : Nat
  typ : Nat
deriving DecidableEq

/-- One record of a node: its in-memory key and its raw value bytes. -/
structure NRec where
  key : MKey
  val : List Nat
deriving DecidableEq

/-- Default record used with `List.getD`. -/
def defNRec : NRec := ⟨⟨0, 0, 0⟩, []⟩

/-- The node view of layer 2: the list of records in slot order and the
leaf flag. -/
structure NodeV where
  recs : List NRec
  leaf : Bool
deriving DecidableEq

/-- A query cursor: current node, its block number (for diagnostics),
current slot index and depth counter — the fields of `struct apfs_query`
that drive the loop. -/
structure Cursor where
  node : NodeV
  blk : Nat
  index : Nat
  depth : Nat
deriving DecidableEq

/-- Errors surfaced by the engine: `-ENODATA`, the two `-EFSCORRUPTED`
cases (depth guard, bad child record — the latter carries the block
number that `apfs_alert` logs), the omap-leaf corruption case, an I/O
failure, and a failed omap resolution. -/
inductive QErr where
  | nodata
  | depthLimit
  | badChild (blk : Nat)
  | badOmapLeaf (blk : Nat)
  | ioErr (blk : Nat)
  | resolveFail
deriving DecidableEq

/-- Whether an error is one of the corruption signals. -/
def QErr.isCorruption : QErr → Bool
  | .depthLimit => true
  | .badChild _ => true
  | .badOmapLeaf _ => true
  | _ => false

deriving instance DecidableEq for Except

/-- Outcome of a query run: the result plus the number of descent and
ascent steps the loop took (instrumentation for the bound claims). -/
structure QOut where
  res : Except QErr (NodeV × Nat)
  desc : Nat
  asc : Nat
deriving DecidableEq

/-- The environment of a traversal: the disk (block number to node view)
and the omap resolution used by non-omap trees, both finite tables.
Resolution for a non-omap tree is itself a b-tree query on the omap
root; it is kept abstract here, as the spec keeps it a collaborator. -/
structure Env where
  tbl : List (Nat × NodeV)
  rmap : List (Nat × Nat)

/-- Read a node from the disk table (`apfs_read_node`). -/
def envRead (e : Env) (b : Nat) : Option NodeV :=
  (e.tbl.find? (fun pr => pr.1 == b)).map (fun pr => pr.2)

/-- Resolve a child object id through the object map
(`apfs_omap_lookup_block` with `write = false`, kept abstract). -/
def envResolve (e : Env) (i : Nat) : Except QErr Nat :=
  match e.rmap.find? (fun pr => pr.1 == i) with
  | some pr => .ok pr.2
  | none => .error .resolveFail

/-- Everything constant across one traversal: environment, per-tree key
comparator, the `APFS_QUERY_OMAP` and `APFS_QUERY_MULTIPLE` flags, and
the target key. -/
structure QCtx where
  env : Env
  cmp : MKey → MKey → Ordering
  omapF : Bool
  multF : Bool
  target : MKey

/-- Modelled from the spec: the downward scan of `apfs_node_query`
(node.c is not among the sources).  Starting just below `n`, return the
greatest slot whose key is less than or equal to the target, or `none`
to signal backtrack (`-EAGAIN`); an empty search range backtracks.  On a
revisit after backtrack the cursor's index is the previously returned
slot, so the search continues strictly below it, as the spec requires
("continue from one slot earlier"). -/
def nqScan (cmp : MKey → MKey → Ordering) (rs : List NRec) (t : MKey) : Nat → Option Nat
  | 0 => none
  | j + 1 =>
    if j < rs.length ∧ cmp (rs.getD j defNRec).key t ≠ Ordering.gt then some j
    else nqScan cmp rs t j

/-- Modelled from the spec: `apfs_node_query` positions the query on the
record with the greatest key at most the target among slots below the
current index. -/
def apfs_node_query (cmp : MKey → MKey → Ordering) (rs : List NRec) (idx : Nat)
    (t : MKey) : Option Nat :=
  nqScan cmp rs t idx

/-- View a byte list as a block (the record's value bytes inside the
node's buffer, based at the query's value offset). -/
def listBlock (l : List Nat) : Block := fun i => l.getD i 0

/-- `apfs_child_from_query` (btree.c lines 27-36): the value of a
non-leaf record must be exactly 8 bytes and is read as the little-endian
64-bit child id; any other length is `-EFSCORRUPTED`. -/
def apfs_child_from_query (raw : Block) (off len : Nat) : Except Unit Nat :=
  if len ≠ 8 then .error () else .ok (r64 raw off)

/-- Count one ascent step in an outcome. -/
def QOut.addAsc (o : QOut) : QOut := ⟨o.res, o.desc, o.asc + 1⟩

/-- Count one descent step in an outcome. -/
def QOut.addDesc (o : QOut) : QOut := ⟨o.res, o.desc + 1, o.asc⟩

/-- The loop of `apfs_btree_query` (btree.c lines 177-260), with explicit
fuel (`none` means the fuel ran out; a theorem below shows the fuel
computed by `apfs_btree_query` is always sufficient).  Each iteration:
depth guard at 12; node query; on backtrack either fail with `-ENODATA`
at the chain root or pop to the parent; at a leaf succeed; otherwise
read the child id, resolve it (identity for an omap tree), read the
child node, and descend — pushing the current cursor when
`APFS_QUERY_MULTIPLE` is set, replacing it otherwise.  The oid-mismatch
check of line 242 only logs and is not modelled. -/
def goFuel (ctx : QCtx) : Nat → Cursor → List Cursor → Option QOut
  | 0, _, _ => none
  | f + 1, cur, parents =>
    if 12 ≤ cur.depth then some ⟨.error .depthLimit, 0, 0⟩
    else
      match apfs_node_query ctx.cmp cur.node.recs cur.index ctx.target with
      | none =>
        match parents with
        | [] => some ⟨.error .nodata, 0, 0⟩
        | p :: rest => (goFuel ctx f p rest).map QOut.addAsc
      | some j =>
        let cur2 : Cursor := { cur with index := j }
        if cur2.node.leaf then some ⟨.ok (cur2.node, j), 0, 0⟩
        else
          match apfs_child_from_query (listBlock (cur2.node.recs.getD j defNRec).val)
              0 (cur2.node.recs.getD j defNRec).val.length with
          | .error _ => some ⟨.error (.badChild cur2.blk), 0, 0⟩
          | .ok cid =>
            match (if ctx.omapF then Except.ok cid else envResolve ctx.env cid) with
            | .error e => some ⟨.error e, 0, 0⟩
            | .ok cblk =>
              match envRead ctx.env cblk with
              | none => some ⟨.error (.ioErr cblk), 0, 0⟩
              | some child =>
                let cc : Cursor := ⟨child, cblk, child.recs.length, cur2.depth + 1⟩
                if ctx.multF then (goFuel ctx f cc (cur2 :: parents)).map QOut.addDesc
                else (goFuel ctx f cc parents).map QOut.addDesc

/-- The tail of a loop iteration after the child id has been read:
resolve it, read the child node, and descend.  `goFuel` unfolds to this
once the node query has found a record of a non-leaf node. -/
def afterChild (ctx : QCtx) (f : Nat) (cur2 : Cursor) (parents : List Cursor)
    (cid : Nat) : Option QOut :=
  match (if ctx.omapF then Except.ok cid else envResolve ctx.env cid) with
  | .error e => some ⟨.error e, 0, 0⟩
  | .ok cblk =>
    match envRead ctx.env cblk with
    | none => some ⟨.error (.ioErr cblk), 0, 0⟩
    | some child =>
      let cc : Cursor := ⟨child, cblk, child.recs.length, cur2.depth + 1⟩
      if ctx.multF then (goFuel ctx f cc (cur2 :: parents)).map QOut.addDesc
      else (goFuel ctx f cc parents).map QOut.addDesc

/-- A bound on the record count of every node the environment can serve,
plus two (so that `recs.length + 2 ≤ boundOf env`). -/
def boundOf (e : Env) : Nat :=
  e.tbl.foldr (fun pr m => max pr.2.recs.length m) 0 + 2

/-- The termination measure of the loop: over the query chain, sum
`(index + 1) * B ^ (12 - depth)`.  Descending trades one index step at
the current level for a full child cursor one level lower; ascending
drops the current cursor; both strictly decrease the measure. -/
def chainMeasure (bnd : Nat) (l : List Cursor) : Nat :=
  (l.map (fun c => (c.index + 1) * bnd ^ (12 - c.depth))).sum

/-- `apfs_btree_query` run from a caller-allocated query (no parent):
the loop with a fuel that the adequacy theorem proves sufficient. -/
def apfs_btree_query (ctx : QCtx) (cur : Cursor) : Option QOut :=
  goFuel ctx (chainMeasure (boundOf ctx.env) [cur] + 1) cur []

/-! ## The object map on a root-and-leaf node -/

/-- One object-map record: `struct apfs_omap_key` is `(ok_oid, ok_xid)`
(key.h); the value bytes hold the physical address. -/
structure ORec where
  oid : Nat
  xid : Nat
  val : List Nat
deriving DecidableEq

/-- An object map that is a single root-and-leaf node, the only shape
the write path of `apfs_omap_lookup_block` supports: its records, the
node's object-header xid, its block number, and the buffer flags. -/
structure OmapNode where
  recs : List ORec
  nodeXid : Nat
  blk : Nat
  dirty : Bool
  csum : Bool
deriving DecidableEq

/-- `apfs_init_omap_key` (key.h): an omap search key is
`(id = oid, number = xid, type = 0)`. -/
def apfs_init_omap_key (oid xid : Nat) : MKey := ⟨oid, xid, 0⟩

/-- Modelled from the spec: the omap key order of `apfs_keycmp` (key.c is
not among the sources) — object id first, then transaction id, so that
a query returns the greatest stored xid at most the target xid. -/
def cmpOmap (a b : MKey) : Ordering :=
  if a.id < b.id then .lt
  else if b.id < a.id then .gt
  else if a.number < b.number then .lt
  else if b.number < a.number then .gt
  else .eq

/-- The layer-2 records of an omap node. -/
def omapRecs (t : OmapNode) : List NRec :=
  t.recs.map (fun r => ⟨⟨r.oid, r.xid, 0⟩, r.val⟩)

/-- The layer-2 view of an omap root-and-leaf node. -/
def omapNodeV (t : OmapNode) : NodeV := ⟨omapRecs t, true⟩

/-- Little-endian bytes of a 64-bit store (`cpu_to_le64`). -/
def le64bytes (n : Nat) : List Nat :=
  [n % 256, n / 256 % 256, n / 65536 % 256, n / 16777216 % 256,
   n / 4294967296 % 256, n / 1099511627776 % 256,
   n / 281474976710656 % 256, n / 72057594037927936 % 256]

/-- `apfs_omap_lookup_block` (btree.c lines 48-109) on a root-and-leaf
object map.  Build the omap key, run the query in omap mode, and read
the leaf record.  `apfs_bno_from_query` is modelled from the spec: the
value must be the 8-byte physical address, anything else is the logged
"bad object map leaf block" corruption.  With `write` set, the
copy-on-write read of the target block is the oracle `cow` (the
transaction layer behind `apfs_read_object_block`); the found record's
key xid is overwritten with the current transaction xid and its value
with the new block number, the node's checksum is recomputed and the
buffer marked dirty, and the new block number is returned. -/
def apfs_omap_lookup_block (sxid : Nat) (tbl : OmapNode) (id : Nat) (write : Bool)
    (cow : Nat → Option Nat) : Except QErr (Nat × OmapNode) :=
  let ctx : QCtx := ⟨⟨[], []⟩, cmpOmap, true, false, apfs_init_omap_key id sxid⟩
  match apfs_btree_query ctx ⟨omapNodeV tbl, tbl.blk, (omapRecs tbl).length, 0⟩ with
  | none => .error .resolveFail
  | some out =>
    match out.res with
    | .error e => .error e
    | .ok (_, j) =>
      let r := tbl.recs.getD j ⟨0, 0, []⟩
      if r.val.length ≠ 8 then .error (.badOmapLeaf tbl.blk)
      else
        let blk0 := r64 (listBlock r.val) 0
        if write then
          match cow blk0 with
          | none => .error (.ioErr blk0)
          | some nb =>
            let r2 : ORec := { r with xid := sxid, val := le64bytes nb }
            .ok (nb, { tbl with recs := tbl.recs.set j r2, dirty := true, csum := true })
        else .ok (blk0, tbl)

/-! ## Byte algebra -/

theorem w8_self (b : Block) (o v : Nat) : w8 b o v o = v % 256 := by
  simp [w8]

theorem w8_other {i o : Nat} (b : Block) (v : Nat) (h : i ≠ o) : w8 b o v i = b i := by
  simp [w8, h]

theorem w16_other {i o : Nat} (b : Block) (v : Nat) (h : i < o ∨ o + 2 ≤ i) :
    w16 b o v i = b i := by
  unfold w16
  rw [w8_other _ _ (by omega), w8_other _ _ (by omega)]

theorem w32_other {i o : Nat} (b : Block) (v : Nat) (h : i < o ∨ o + 4 ≤ i) :
    w32 b o v i = b i := by
  unfold w32
  rw [w16_other _ _ (by omega), w16_other _ _ (by omega)]

theorem w64_other {i o : Nat} (b : Block) (v : Nat) (h : i < o ∨ o + 8 ≤ i) :
    w64 b o v i = b i := by
  unfold w64
  rw [w32_other _ _ (by omega), w32_other _ _ (by omega)]

theorem le16add_other {i o : Nat} (b : Block) (d : Int) (h : i < o ∨ o + 2 ≤ i) :
    le16add b o d i = b i := by
  unfold le16add
  exact w16_other _ _ h

theorem le64add_other {i o : Nat} (b : Block) (d : Int) (h : i < o ∨ o + 8 ≤ i) :
    le64add b o d i = b i := by
  unfold le64add
  exact w64_other _ _ h

theorem memmove_other {i dst src n : Nat} (b : Block) (h : i < dst ∨ dst + n ≤ i) :
    memmove b dst src n i = b i := by
  simp only [memmove]
  rw [if_neg (by omega)]

theorem memmove_at {i n : Nat} (b : Block) (dst src : Nat) (h : i < n) :
    memmove b dst src n (dst + i) = b (src + i) := by
  simp only [memmove]
  rw [if_pos (by omega)]
  congr 1
  omega

theorem wbytes_other {i o : Nat} (b : Block) (l : List Nat) (h : i < o ∨ o + l.length ≤ i) :
    wbytes b o l i = b i := by
  simp only [wbytes]
  rw [if_neg (by omega)]

theorem wbytes_at {i : Nat} (b : Block) (o : Nat) (l : List Nat) (h : i < l.length) :
    wbytes b o l (o + i) = l.getD i 0 % 256 := by
  simp only [wbytes]
  rw [if_pos (by omega)]
  congr 2
  omega

theorem r16_ext {b1 : Block} (b2 : Block) {o : Nat}
    (h : ∀ k, o ≤ k → k < o + 2 → b1 k = b2 k) :
    r16 b1 o = r16 b2 o := by
  unfold r16
  rw [h o (by omega) (by omega), h (o + 1) (by omega) (by omega)]

theorem r32_ext {b1 : Block} (b2 : Block) {o : Nat}
    (h : ∀ k, o ≤ k → k < o + 4 → b1 k = b2 k) :
    r32 b1 o = r32 b2 o := by
  unfold r32 r16
  rw [h o (by omega) (by omega), h (o + 1) (by omega) (by omega),
    h (o + 2) (by omega) (by omega), h (o + 2 + 1) (by omega) (by omega)]

theorem r64_ext {b1 : Block} (b2 : Block) {o : Nat}
    (h : ∀ k, o ≤ k → k < o + 8 → b1 k = b2 k) :
    r64 b1 o = r64 b2 o := by
  unfold r64 r32 r16
  rw [h o (by omega) (by omega), h (o + 1) (by omega) (by omega),
    h (o + 2) (by omega) (by omega), h (o + 2 + 1) (by omega) (by omega),
    h (o + 4) (by omega) (by omega), h (o + 4 + 1) (by omega) (by omega),
    h (o + 4 + 2) (by omega) (by omega), h (o + 4 + 2 + 1) (by omega) (by omega)]

theorem r16_w16 (b : Block) (o v : Nat) : r16 (w16 b o v) o = v % 65536 := by
  unfold r16 w16
  rw [w8_other _ _ (by omega), w8_self, w8_self]
  omega

theorem r32_w32 (b : Block) (o v : Nat) : r32 (w32 b o v) o = v % 4294967296 := by
  unfold r32 w32
  rw [r16_ext (w16 b o v) (fun k hk1 hk2 => w16_other _ _ (by omega)), r16_w16, r16_w16]
  omega

theorem r64_w64 (b : Block) (o v : Nat) :
    r64 (w64 b o v) o = v % 18446744073709551616 := by
  unfold r64 w64
  rw [r32_ext (w32 b o v) (fun k hk1 hk2 => w32_other _ _ (by omega)), r32_w32, r32_w32]
  omega

theorem r16_le16add (b : Block) (o : Nat) (d : Int) :
    r16 (le16add b o d) o = (((r16 b o : Int) + d) % 65536).toNat := by
  unfold le16add
  rw [r16_w16]
  omega

theorem r64_le64add (b : Block) (o : Nat) (d : Int) :
    r64 (le64add b o d) o = (((r64 b o : Int) + d) % 18446744073709551616).toNat := by
  unfold le64add
  rw [r64_w64]
  omega

theorem toNat_add_emod16 (a n : Nat) : (((a : Int) + (n : Nat)) % 65536).toNat = (a + n) % 65536 := by
  omega

theorem toNat_add_emod64 (a n : Nat) :
    (((a : Int) + (n : Nat)) % 18446744073709551616).toNat = (a + n) % 18446744073709551616 := by
  omega

theorem r16_w16_skip (b : Block) {o2 v o : Nat} (h : o + 2 ≤ o2 ∨ o2 + 2 ≤ o) :
    r16 (w16 b o2 v) o = r16 b o := by
  unfold r16
  rw [w16_other _ _ (by omega), w16_other _ _ (by omega)]

theorem r16_w32_skip (b : Block) {o2 v o : Nat} (h : o + 2 ≤ o2 ∨ o2 + 4 ≤ o) :
    r16 (w32 b o2 v) o = r16 b o := by
  unfold r16
  rw [w32_other _ _ (by omega), w32_other _ _ (by omega)]

theorem r16_le16add_skip (b : Block) {o2 : Nat} {d : Int} {o : Nat}
    (h : o + 2 ≤ o2 ∨ o2 + 2 ≤ o) :
    r16 (le16add b o2 d) o = r16 b o := by
  unfold r16
  rw [le16add_other _ _ (by omega), le16add_other _ _ (by omega)]

theorem r16_le64add_skip (b : Block) {o2 : Nat} {d : Int} {o : Nat}
    (h : o + 2 ≤ o2 ∨ o2 + 8 ≤ o) :
    r16 (le64add b o2 d) o = r16 b o := by
  unfold r16
  rw [le64add_other _ _ (by omega), le64add_other _ _ (by omega)]

theorem r16_memmove_skip (b : Block) {dst src n o : Nat}
    (h : o + 2 ≤ dst ∨ dst + n ≤ o) :
    r16 (memmove b dst src n) o = r16 b o := by
  unfold r16
  rw [memmove_other _ (by omega), memmove_other _ (by omega)]

theorem r16_wbytes_skip (b : Block) {o2 : Nat} {l : List Nat} {o : Nat}
    (h : o + 2 ≤ o2 ∨ o2 + l.length ≤ o) :
    r16 (wbytes b o2 l) o = r16 b o := by
  unfold r16
  rw [wbytes_other _ _ (by omega), wbytes_other _ _ (by omega)]

theorem r32_w16_skip (b : Block) {o2 v o : Nat} (h : o + 4 ≤ o2 ∨ o2 + 2 ≤ o) :
    r32 (w16 b o2 v) o = r32 b o := by
  unfold r32 r16
  rw [w16_other _ _ (by omega), w16_other _ _ (by omega), w16_other _ _ (by omega),
    w16_other _ _ (by omega)]

theorem r32_w32_skip (b : Block) {o2 v o : Nat} (h : o + 4 ≤ o2 ∨ o2 + 4 ≤ o) :
    r32 (w32 b o2 v) o = r32 b o := by
  unfold r32 r16
  rw [w32_other _ _ (by omega), w32_other _ _ (by omega), w32_other _ _ (by omega),
    w32_other _ _ (by omega)]

theorem r32_le16add_skip (b : Block) {o2 : Nat} {d : Int} {o : Nat}
    (h : o + 4 ≤ o2 ∨ o2 + 2 ≤ o) :
    r32 (le16add b o2 d) o = r32 b o := by
  unfold r32 r16
  rw [le16add_other _ _ (by omega), le16add_other _ _ (by omega),
    le16add_other _ _ (by omega), le16add_other _ _ (by omega)]

theorem r32_le64add_skip (b : Block) {o2 : Nat} {d : Int} {o : Nat}
    (h : o + 4 ≤ o2 ∨ o2 + 8 ≤ o) :
    r32 (le64add b o2 d) o = r32 b o := by
  unfold r32 r16
  rw [le64add_other _ _ (by omega), le64add_other _ _ (by omega),
    le64add_other _ _ (by omega), le64add_other _ _ (by omega)]

theorem r32_memmove_skip (b : Block) {dst src n o : Nat}
    (h : o + 4 ≤ dst ∨ dst + n ≤ o) :
    r32 (memmove b dst src n) o = r32 b o := by
  unfold r32 r16
  rw [memmove_other _ (by omega), memmove_other _ (by omega),
    memmove_other _ (by omega), memmove_other _ (by omega)]

theorem r32_wbytes_skip (b : Block) {o2 : Nat} {l : List Nat} {o : Nat}
    (h : o + 4 ≤ o2 ∨ o2 + l.length ≤ o) :
    r32 (wbytes b o2 l) o = r32 b o := by
  unfold r32 r16
  rw [wbytes_other _ _ (by omega), wbytes_other _ _ (by omega),
    wbytes_other _ _ (by omega), wbytes_other _ _ (by omega)]

theorem r64_w16_skip (b : Block) {o2 v o : Nat} (h : o + 8 ≤ o2 ∨ o2 + 2 ≤ o) :
    r64 (w16 b o2 v) o = r64 b o := by
  unfold r64 r32 r16
  rw [w16_other _ _ (by omega), w16_other _ _ (by omega), w16_other _ _ (by omega),
    w16_other _ _ (by omega), w16_other _ _ (by omega), w16_other _ _ (by omega),
    w16_other _ _ (by omega), w16_other _ _ (by omega)]

theorem r64_w32_skip (b : Block) {o2 v o : Nat} (h : o + 8 ≤ o2 ∨ o2 + 4 ≤ o) :
    r64 (w32 b o2 v) o = r64 b o := by
  unfold r64 r32 r16
  rw [w32_other _ _ (by omega), w32_other _ _ (by omega), w32_other _ _ (by omega),
    w32_other _ _ (by omega), w32_other _ _ (by omega), w32_other _ _ (by omega),
    w32_other _ _ (by omega), w32_other _ _ (by omega)]

theorem r64_le16add_skip (b : Block) {o2 : Nat} {d : Int} {o : Nat}
    (h : o + 8 ≤ o2 ∨ o2 + 2 ≤ o) :
    r64 (le16add b o2 d) o = r64 b o := by
  unfold r64 r32 r16
  rw [le16add_other _ _ (by omega), le16add_other _ _ (by omega),
    le16add_other _ _ (by omega), le16add_other _ _ (by omega),
    le16add_other _ _ (by omega), le16add_other _ _ (by omega),
    le16add_other _ _ (by omega), le16add_other _ _ (by omega)]

theorem r64_memmove_skip (b : Block) {dst src n o : Nat}
    (h : o + 8 ≤ dst ∨ dst + n ≤ o) :
    r64 (memmove b dst src n) o = r64 b o := by
  unfold r64 r32 r16
  rw [memmove_other _ (by omega), memmove_other _ (by omega),
    memmove_other _ (by omega), memmove_other _ (by omega),
    memmove_other _ (by omega), memmove_other _ (by omega),
    memmove_other _ (by omega), memmove_other _ (by omega)]

theorem r64_wbytes_skip (b : Block) {o2 : Nat} {l : List Nat} {o : Nat}
    (h : o + 8 ≤ o2 ∨ o2 + l.length ≤ o) :
    r64 (wbytes b o2 l) o = r64 b o := by
  unfold r64 r32 r16
  rw [wbytes_other _ _ (by omega), wbytes_other _ _ (by omega),
    wbytes_other _ _ (by omega), wbytes_other _ _ (by omega),
    wbytes_other _ _ (by omega), wbytes_other _ _ (by omega),
    wbytes_other _ _ (by omega), wbytes_other _ _ (by omega)]

/-! ## Characterization of the insert and remove steps -/

theorem growToc_mem (st : NodeState) (tes : Nat) :
    (growToc st tes).mem = { st.mem with
      key := st.mem.key + 8 * tes
      free := st.mem.free + 8 * tes } := rfl

theorem growToc_flags (st : NodeState) (tes : Nat) :
    (growToc st tes).dirty = st.dirty ∧ (growToc st tes).csum = st.csum :=
  ⟨rfl, rfl⟩

theorem growToc_raw_other {st : NodeState} {tes i : Nat}
    (hkf : st.mem.key ≤ st.mem.free)
    (h1 : i < st.mem.key + 8 * tes ∨ st.mem.free + 8 * tes ≤ i)
    (h2 : i < 42 ∨ 48 ≤ i) :
    (growToc st tes).raw i = st.raw i := by
  simp only [growToc]
  rw [le16add_other _ _ (by omega), le16add_other _ _ (by omega),
    memmove_other _ (by omega)]

theorem growToc_moved {st : NodeState} {tes i : Nat}
    (h : i < st.mem.free - st.mem.key) (hk : 48 ≤ st.mem.key) :
    (growToc st tes).raw (st.mem.key + 8 * tes + i) = st.raw (st.mem.key + i) := by
  simp only [growToc]
  rw [le16add_other _ _ (by omega), le16add_other _ _ (by omega),
    memmove_at _ _ _ h]

theorem growToc_r16_42 {st : NodeState} {tes : Nat} (hk : 48 ≤ st.mem.key) :
    r16 (growToc st tes).raw 42 = (r16 st.raw 42 + 8 * tes) % 65536 := by
  simp only [growToc]
  rw [r16_le16add_skip _ (by omega), r16_le16add, r16_memmove_skip _ (by omega),
    toNat_add_emod16]

theorem growToc_r16_46 {st : NodeState} {tes : Nat} (hk : 48 ≤ st.mem.key) :
    r16 (growToc st tes).raw 46 = (((r16 st.raw 46 : Int) - 8 * tes) % 65536).toNat := by
  simp only [growToc]
  rw [r16_le16add, r16_le16add_skip _ (by omega), r16_memmove_skip _ (by omega)]
  omega

theorem tocWrite_mem (bs : Nat) (st : NodeState) (p kl vl : Nat) (g : Bool) :
    (tocWrite bs st p kl vl g).mem = st.mem := by
  unfold tocWrite
  split <;> rfl

theorem tocWrite_flags (bs : Nat) (st : NodeState) (p kl vl : Nat) (g : Bool) :
    (tocWrite bs st p kl vl g).dirty = st.dirty ∧ (tocWrite bs st p kl vl g).csum = st.csum := by
  unfold tocWrite
  split <;> exact ⟨rfl, rfl⟩

theorem tocWrite_raw_other {bs : Nat} {st : NodeState} {p kl vl i : Nat} {g : Bool}
    (hp : p ≤ st.mem.records)
    (h : i < 56 + tocEntrySize st.mem.fixedKv * p ∨
         56 + tocEntrySize st.mem.fixedKv * (st.mem.records + 1) ≤ i) :
    (tocWrite bs st p kl vl g).raw i = st.raw i := by
  unfold tocWrite
  rcases hfx : st.mem.fixedKv with _ | _ <;> simp [hfx, tocEntrySize] at h ⊢
  · rw [w16_other _ _ (by omega), w16_other _ _ (by omega), w16_other _ _ (by omega),
      w16_other _ _ (by omega), memmove_other _ (by omega)]
  · rw [w16_other _ _ (by omega), w16_other _ _ (by omega), memmove_other _ (by omega)]

theorem tocWrite_shifted {bs : Nat} {st : NodeState} {p kl vl j i : Nat} {g : Bool}
    (hp : p ≤ j) (hj : j < st.mem.records) (hi : i < tocEntrySize st.mem.fixedKv) :
    (tocWrite bs st p kl vl g).raw (56 + tocEntrySize st.mem.fixedKv * (j + 1) + i) =
      st.raw (56 + tocEntrySize st.mem.fixedKv * j + i) := by
  unfold tocWrite
  rcases hfx : st.mem.fixedKv with _ | _ <;> simp [hfx, tocEntrySize] at hi ⊢
  · rw [w16_other _ _ (by omega), w16_other _ _ (by omega), w16_other _ _ (by omega),
      w16_other _ _ (by omega)]
    have he : 56 + 8 * (j + 1) + i = (56 + 8 * p + 8) + (8 * (j - p) + i) := by omega
    rw [he, memmove_at _ _ _ (by omega)]
    congr 1
    omega
  · rw [w16_other _ _ (by omega), w16_other _ _ (by omega)]
    have he : 56 + 4 * (j + 1) + i = (56 + 4 * p + 4) + (4 * (j - p) + i) := by omega
    rw [he, memmove_at _ _ _ (by omega)]
    congr 1
    omega

theorem tocWrite_fixed_k {bs : Nat} {st : NodeState} {p kl vl : Nat} {g : Bool}
    (hfx : st.mem.fixedKv = true) :
    r16 (tocWrite bs st p kl vl g).raw (56 + 4 * p) =
      (st.mem.free - st.mem.key) % 65536 := by
  unfold tocWrite
  simp [hfx, tocEntrySize]
  rw [r16_w16]

theorem tocWrite_fixed_v {bs : Nat} {st : NodeState} {p kl vl : Nat} {g : Bool}
    (hfx : st.mem.fixedKv = true) :
    r16 (tocWrite bs st p kl vl g).raw (56 + 4 * p + 2) =
      (if g then 65535 else vl) % 65536 := by
  unfold tocWrite
  simp [hfx, tocEntrySize]
  rw [r16_w16_skip _ (by omega), r16_w16]

theorem tocWrite_var_koff {bs : Nat} {st : NodeState} {p kl vl : Nat} {g : Bool}
    (hfx : st.mem.fixedKv = false) :
    r16 (tocWrite bs st p kl vl g).raw (56 + 8 * p) =
      (st.mem.free - st.mem.key) % 65536 := by
  unfold tocWrite
  simp [hfx, tocEntrySize]
  rw [r16_w16_skip _ (by omega), r16_w16]

theorem tocWrite_var_klen {bs : Nat} {st : NodeState} {p kl vl : Nat} {g : Bool}
    (hfx : st.mem.fixedKv = false) :
    r16 (tocWrite bs st p kl vl g).raw (56 + 8 * p + 2) = kl % 65536 := by
  unfold tocWrite
  simp [hfx, tocEntrySize]
  rw [r16_w16]

theorem tocWrite_var_voff {bs : Nat} {st : NodeState} {p kl vl : Nat} {g : Bool}
    (hfx : st.mem.fixedKv = false) :
    r16 (tocWrite bs st p kl vl g).raw (56 + 8 * p + 4) =
      (bs - st.mem.data - 40 + vl) % 65536 := by
  unfold tocWrite
  simp [hfx, tocEntrySize]
  rw [r16_w16_skip _ (by omega), r16_w16_skip _ (by omega), r16_w16_skip _ (by omega),
    r16_w16]

theorem tocWrite_var_vlen {bs : Nat} {st : NodeState} {p kl vl : Nat} {g : Bool}
    (hfx : st.mem.fixedKv = false) :
    r16 (tocWrite bs st p kl vl g).raw (56 + 8 * p + 6) = vl % 65536 := by
  unfold tocWrite
  simp [hfx, tocEntrySize]
  rw [r16_w16_skip _ (by omega), r16_w16_skip _ (by omega), r16_w16]

theorem keyAppend_mem (st : NodeState) (k : List Nat) :
    (keyAppend st k).mem = { st.mem with free := st.mem.free + k.length } := rfl

theorem keyAppend_flags (st : NodeState) (k : List Nat) :
    (keyAppend st k).dirty = st.dirty ∧ (keyAppend st k).csum = st.csum := ⟨rfl, rfl⟩

theorem keyAppend_raw_other {st : NodeState} {k : List Nat} {i : Nat}
    (h1 : i < st.mem.free ∨ st.mem.free + k.length ≤ i) (h2 : i < 44 ∨ 48 ≤ i) :
    (keyAppend st k).raw i = st.raw i := by
  simp only [keyAppend]
  rw [le16add_other _ _ (by omega), le16add_other _ _ (by omega),
    wbytes_other _ _ (by omega)]

theorem keyAppend_bytes {st : NodeState} {k : List Nat} {i : Nat}
    (hi : i < k.length) (hf : 48 ≤ st.mem.free) :
    (keyAppend st k).raw (st.mem.free + i) = k.getD i 0 % 256 := by
  simp only [keyAppend]
  rw [le16add_other _ _ (by omega), le16add_other _ _ (by omega), wbytes_at _ _ _ hi]

theorem keyAppend_r16_44 {st : NodeState} {k : List Nat} (hf : 48 ≤ st.mem.free) :
    r16 (keyAppend st k).raw 44 = (r16 st.raw 44 + k.length) % 65536 := by
  simp only [keyAppend]
  rw [r16_le16add_skip _ (by omega), r16_le16add, r16_wbytes_skip _ (by omega),
    toNat_add_emod16]

theorem keyAppend_r16_46 {st : NodeState} {k : List Nat} (hf : 48 ≤ st.mem.free) :
    r16 (keyAppend st k).raw 46 =
      (((r16 st.raw 46 : Int) - k.length) % 65536).toNat := by
  simp only [keyAppend]
  rw [r16_le16add, r16_le16add_skip _ (by omega), r16_wbytes_skip _ (by omega)]
  omega

theorem valWrite_mem (st : NodeState) (v : List Nat) :
    (valWrite st v).mem = { st.mem with data := st.mem.data - v.length } := rfl

theorem valWrite_flags (st : NodeState) (v : List Nat) :
    (valWrite st v).dirty = st.dirty ∧ (valWrite st v).csum = st.csum := ⟨rfl, rfl⟩

theorem valWrite_raw_other {st : NodeState} {v : List Nat} {i : Nat}
    (h1 : i < st.mem.data - v.length ∨ st.mem.data ≤ i) (h2 : i < 46 ∨ 48 ≤ i)
    (hd : v.length ≤ st.mem.data) :
    (valWrite st v).raw i = st.raw i := by
  simp only [valWrite]
  rw [le16add_other _ _ (by omega), wbytes_other _ _ (by omega)]

theorem valWrite_bytes {st : NodeState} {v : List Nat} {i : Nat}
    (hi : i < v.length) (hd : 48 ≤ st.mem.data - v.length) :
    (valWrite st v).raw (st.mem.data - v.length + i) = v.getD i 0 % 256 := by
  simp only [valWrite]
  rw [le16add_other _ _ (by omega), wbytes_at _ _ _ hi]

theorem valWrite_r16_46 {st : NodeState} {v : List Nat}
    (hd : 48 ≤ st.mem.data - v.length) :
    r16 (valWrite st v).raw 46 =
      (((r16 st.raw 46 : Int) - v.length) % 65536).toNat := by
  simp only [valWrite]
  rw [r16_le16add, r16_wbytes_skip _ (by omega)]
  omega

theorem bumpCounters_mem (bs : Nat) (st : NodeState) (kl vl : Nat) :
    (bumpCounters bs st kl vl).mem =
      { st.mem with records := st.mem.records + 1 } := rfl

theorem bumpCounters_flags (bs : Nat) (st : NodeState) (kl vl : Nat) :
    (bumpCounters bs st kl vl).dirty = true ∧ (bumpCounters bs st kl vl).csum = true :=
  ⟨rfl, rfl⟩

theorem bumpCounters_raw_other {bs : Nat} {st : NodeState} {kl vl i : Nat}
    (hbs : 64 ≤ bs) (h1 : i < 36 ∨ 40 ≤ i) (h2 : i < bs - 24 ∨ bs - 8 ≤ i) :
    (bumpCounters bs st kl vl).raw i = st.raw i := by
  simp only [bumpCounters]
  split <;> split <;>
    first
    | rw [w32_other _ _ (by omega), w32_other _ _ (by omega), w32_other _ _ (by omega),
        le64add_other _ _ (by omega)]
    | rw [w32_other _ _ (by omega), w32_other _ _ (by omega),
        le64add_other _ _ (by omega)]
    | rw [w32_other _ _ (by omega), le64add_other _ _ (by omega)]

theorem bumpCounters_keycount {bs : Nat} (st : NodeState) (kl vl : Nat)
    (hbs : 64 ≤ bs) :
    r64 (bumpCounters bs st kl vl).raw (bs - 16) =
      (r64 st.raw (bs - 16) + 1) % 18446744073709551616 := by
  simp only [bumpCounters]
  split <;> split <;> (repeat rw [r64_w32_skip _ (by omega)]) <;> rw [r64_le64add] <;>
    omega

theorem bumpCounters_nkeys {bs : Nat} (st : NodeState) (kl vl : Nat)
    (hbs : 64 ≤ bs) :
    r32 (bumpCounters bs st kl vl).raw 36 = (st.mem.records + 1) % 4294967296 := by
  simp only [bumpCounters]
  split <;> split <;>
    first
    | rw [r32_w32_skip _ (by omega), r32_w32_skip _ (by omega), r32_w32]
    | rw [r32_w32_skip _ (by omega), r32_w32]
    | rw [r32_w32]

theorem bumpCounters_longkey {bs : Nat} (st : NodeState) (kl vl : Nat)
    (hbs : 64 ≤ bs) (hkl : kl < 4294967296) :
    r32 (bumpCounters bs st kl vl).raw (bs - 24) =
      max (r32 st.raw (bs - 24)) kl := by
  simp only [bumpCounters]
  have hbase : r32 (w32 (le64add st.raw (bs - 16) 1) 36 (st.mem.records + 1)) (bs - 24) =
      r32 st.raw (bs - 24) := by
    rw [r32_w32_skip _ (by omega), r32_le64add_skip _ (by omega)]
  split
  · split
    · rename_i hgt _
      rw [r32_w32_skip _ (by omega), r32_w32, Nat.mod_eq_of_lt hkl]
      rw [hbase] at hgt
      omega
    · rename_i hgt _
      rw [r32_w32, Nat.mod_eq_of_lt hkl]
      rw [hbase] at hgt
      omega
  · split
    · rename_i hgt _
      rw [r32_w32_skip _ (by omega), hbase]
      rw [hbase] at hgt
      omega
    · rename_i hgt _
      rw [hbase]
      rw [hbase] at hgt
      omega

theorem bumpCounters_longval {bs : Nat} (st : NodeState) (kl vl : Nat)
    (hbs : 64 ≤ bs) (hvl : vl < 4294967296) :
    r32 (bumpCounters bs st kl vl).raw (bs - 20) =
      max (r32 st.raw (bs - 20)) vl := by
  simp only [bumpCounters]
  have hbase : r32 (w32 (le64add st.raw (bs - 16) 1) 36 (st.mem.records + 1)) (bs - 20) =
      r32 st.raw (bs - 20) := by
    rw [r32_w32_skip _ (by omega), r32_le64add_skip _ (by omega)]
  split
  · split
    · rename_i hvgt
      rw [r32_w32, Nat.mod_eq_of_lt hvl]
      rw [r32_w32_skip _ (by omega), hbase] at hvgt
      omega
    · rename_i hvgt
      rw [r32_w32_skip _ (by omega), hbase]
      rw [r32_w32_skip _ (by omega), hbase] at hvgt
      omega
  · split
    · rename_i hvgt
      rw [r32_w32, Nat.mod_eq_of_lt hvl]
      rw [hbase] at hvgt
      omega
    · rename_i hvgt
      rw [hbase]
      rw [hbase] at hvgt
      omega

theorem remove_mem (bs : Nat) (st : NodeState) (qidx : Int) (qkl qvl : Nat) :
    (apfs_btree_remove bs st qidx qkl qvl).mem =
      { st.mem with records := st.mem.records - 1 } := rfl

theorem remove_flags (bs : Nat) (st : NodeState) (qidx : Int) (qkl qvl : Nat) :
    (apfs_btree_remove bs st qidx qkl qvl).dirty = true ∧
      (apfs_btree_remove bs st qidx qkl qvl).csum = true := ⟨rfl, rfl⟩

theorem remove_raw_other {bs : Nat} {st : NodeState} {qidx : Int} {qkl qvl i : Nat}
    (h1 : i < 56 + tocEntrySize st.mem.fixedKv * qidx.toNat ∨
      56 + tocEntrySize st.mem.fixedKv * qidx.toNat +
        tocEntrySize st.mem.fixedKv * (st.mem.records - qidx.toNat - 1) ≤ i)
    (h2 : i < 36 ∨ 40 ≤ i) (h3 : i < bs - 16 ∨ bs - 8 ≤ i)
    (h4 : i < 50 ∨ 52 ≤ i) (h5 : i < 54 ∨ 56 ≤ i) (hbs : 96 ≤ bs) :
    (apfs_btree_remove bs st qidx qkl qvl).raw i = st.raw i := by
  simp only [apfs_btree_remove]
  rw [le16add_other _ _ (by omega), le16add_other _ _ (by omega),
    w32_other _ _ (by omega), le64add_other _ _ (by omega), memmove_other _ (by omega)]

theorem remove_shifted {bs : Nat} {st : NodeState} {qidx : Int} {qkl qvl j i : Nat}
    (hp : qidx.toNat ≤ j) (hj : j + 1 < st.mem.records)
    (hi : i < tocEntrySize st.mem.fixedKv)
    (htoc : 56 + tocEntrySize st.mem.fixedKv * st.mem.records ≤ bs - 16) :
    (apfs_btree_remove bs st qidx qkl qvl).raw (56 + tocEntrySize st.mem.fixedKv * j + i) =
      st.raw (56 + tocEntrySize st.mem.fixedKv * (j + 1) + i) := by
  simp only [apfs_btree_remove]
  rcases hfx : st.mem.fixedKv with _ | _ <;> simp [hfx, tocEntrySize] at hi htoc ⊢
  · rw [le16add_other _ _ (by omega), le16add_other _ _ (by omega),
      w32_other _ _ (by omega), le64add_other _ _ (by omega)]
    have he : 56 + 8 * j + i = (56 + 8 * Int.toNat qidx) + (8 * (j - Int.toNat qidx) + i) := by
      omega
    rw [he, memmove_at _ _ _ (by omega)]
    congr 1
    omega
  · rw [le16add_other _ _ (by omega), le16add_other _ _ (by omega),
      w32_other _ _ (by omega), le64add_other _ _ (by omega)]
    have he : 56 + 4 * j + i = (56 + 4 * Int.toNat qidx) + (4 * (j - Int.toNat qidx) + i) := by
      omega
    rw [he, memmove_at _ _ _ (by omega)]
    congr 1
    omega

theorem remove_keycount {bs : Nat} (st : NodeState) (qidx : Int) (qkl qvl : Nat)
    (hbs : 96 ≤ bs) (hq : qidx.toNat < st.mem.records)
    (htoc : 56 + tocEntrySize st.mem.fixedKv * st.mem.records ≤ bs - 16) :
    r64 (apfs_btree_remove bs st qidx qkl qvl).raw (bs - 16) =
      (((r64 st.raw (bs - 16) : Int) - 1) % 18446744073709551616).toNat := by
  simp only [apfs_btree_remove]
  rcases hfx : st.mem.fixedKv with _ | _ <;> simp only [hfx, tocEntrySize] at htoc ⊢ <;>
    norm_num at htoc ⊢ <;>
    rw [r64_le16add_skip _ (by omega), r64_le16add_skip _ (by omega),
      r64_w32_skip _ (by omega), r64_le64add, r64_memmove_skip _ (by omega)] <;>
    omega

theorem remove_nkeys {bs : Nat} (st : NodeState) (qidx : Int) (qkl qvl : Nat) :
    r32 (apfs_btree_remove bs st qidx qkl qvl).raw 36 =
      (st.mem.records - 1) % 4294967296 := by
  simp only [apfs_btree_remove]
  rw [r32_le16add_skip _ (by omega), r32_le16add_skip _ (by omega), r32_w32]

theorem remove_r16_50 {bs : Nat} (st : NodeState) (qidx : Int) (qkl qvl : Nat)
    (hbs : 96 ≤ bs) :
    r16 (apfs_btree_remove bs st qidx qkl qvl).raw 50 =
      (r16 st.raw 50 + qkl) % 65536 := by
  simp only [apfs_btree_remove]
  rw [r16_le16add_skip _ (by omega), r16_le16add, r16_w32_skip _ (by omega),
    r16_le64add_skip _ (by omega), r16_memmove_skip _ (by omega), toNat_add_emod16]

theorem remove_r16_54 {bs : Nat} (st : NodeState) (qidx : Int) (qkl qvl : Nat)
    (hbs : 96 ≤ bs) :
    r16 (apfs_btree_remove bs st qidx qkl qvl).raw 54 =
      (r16 st.raw 54 + qvl) % 65536 := by
  simp only [apfs_btree_remove]
  rw [r16_le16add, r16_le16add_skip _ (by omega), r16_w32_skip _ (by omega),
    r16_le64add_skip _ (by omega), r16_memmove_skip _ (by omega), toNat_add_emod16]

theorem remove_r16_48 {bs : Nat} (st : NodeState) (qidx : Int) (qkl qvl : Nat)
    (hbs : 96 ≤ bs) :
    r16 (apfs_btree_remove bs st qidx qkl qvl).raw 48 = r16 st.raw 48 := by
  simp only [apfs_btree_remove]
  rw [r16_le16add_skip _ (by omega), r16_le16add_skip _ (by omega),
    r16_w32_skip _ (by omega), r16_le64add_skip _ (by omega),
    r16_memmove_skip _ (by omega)]

theorem remove_r16_52 {bs : Nat} (st : NodeState) (qidx : Int) (qkl qvl : Nat)
    (hbs : 96 ≤ bs) :
    r16 (apfs_btree_remove bs st qidx qkl qvl).raw 52 = r16 st.raw 52 := by
  simp only [apfs_btree_remove]
  rw [r16_le16add_skip _ (by omega), r16_le16add_skip _ (by omega),
    r16_w32_skip _ (by omega), r16_le64add_skip _ (by omega),
    r16_memmove_skip _ (by omega)]

/-! ## Claims about the insert space checks -/

/-- C4: `btree_insert` fails with no-space exactly when the free gap would
collide with the value region — either `free + key_len + val_len > data`
on entry, or, when a toc extension of `INC = 8 * slot_size` bytes is
required, when the shifted free base plus `key_len + val_len` exceeds
`data`; under the root-and-leaf precondition (a query index in range)
every other insert succeeds. -/
theorem c4_insert_nospace_iff (bs : Nat) (st : NodeState) (qidx : Int)
    (keyB : List Nat) (val : Option (List Nat)) :
    ((∃ s, apfs_btree_insert bs st qidx keyB val = .noSpace s) ↔
      (st.mem.free + keyB.length + (val.getD []).length > st.mem.data ∨
        (56 + (st.mem.records + 1) * tocEntrySize st.mem.fixedKv > st.mem.key ∧
          st.mem.free + 8 * tocEntrySize st.mem.fixedKv + keyB.length +
            (val.getD []).length > st.mem.data))) ∧
    (¬ (st.mem.free + keyB.length + (val.getD []).length > st.mem.data ∨
        (56 + (st.mem.records + 1) * tocEntrySize st.mem.fixedKv > st.mem.key ∧
          st.mem.free + 8 * tocEntrySize st.mem.fixedKv + keyB.length +
            (val.getD []).length > st.mem.data)) →
      ∃ s, apfs_btree_insert bs st qidx keyB val = .ok s (qidx + 1)) := by
  simp only [apfs_btree_insert]
  constructor
  · constructor
    · intro hex
      rcases hex with ⟨s, hs⟩
      split_ifs at hs with h1 h2 h3
      · exact Or.inl h1
      · exact Or.inr ⟨h2, h3⟩
    · intro hc
      by_cases h1 : st.mem.free + keyB.length + (val.getD []).length > st.mem.data
      · exact ⟨st, by rw [if_pos h1]⟩
      · rcases hc with hc1 | ⟨h2, h3⟩
        · exact absurd hc1 h1
        · exact ⟨st, by rw [if_neg h1, if_pos h2, if_pos h3]⟩
  · intro hnc
    push_neg at hnc
    rcases hnc with ⟨h1, h23⟩
    by_cases h2 : 56 + (st.mem.records + 1) * tocEntrySize st.mem.fixedKv > st.mem.key
    · refine ⟨insertCore bs (growToc st (tocEntrySize st.mem.fixedKv)) qidx keyB val, ?_⟩
      rw [if_neg (by omega), if_pos h2, if_neg (by have := h23 h2; omega)]
    · refine ⟨insertCore bs st qidx keyB val, ?_⟩
      rw [if_neg (by omega), if_neg h2]

/-- C10: if `btree_insert` returns no-space the node is left entirely
unchanged — both failure checks run before any byte of the block is
written and before any in-memory node field is modified, so the state
returned on the no-space path is exactly the input state. -/
theorem c10_nospace_unchanged (bs : Nat) (st : NodeState) (qidx : Int)
    (keyB : List Nat) (val : Option (List Nat)) (s : NodeState)
    (h : apfs_btree_insert bs st qidx keyB val = .noSpace s) : s = st := by
  simp only [apfs_btree_insert] at h
  split_ifs at h
  · cases h
    rfl
  · cases h
    rfl

/-- An all-zero block, used by the concrete witness states. -/
def zBlock : Block := fun _ => 0

/-- A nearly full fixed-kv root-and-leaf node: `free = 100`, `data = 104`,
so a 16-byte key does not fit. -/
def wCramped : NodeState := ⟨⟨0, 88, 100, 104, true⟩, zBlock, false, false⟩

theorem c10_witness :
    (apfs_btree_insert 4096 wCramped 0 (List.replicate 16 7) none =
      InsRes.noSpace wCramped) ∧ wCramped = wCramped :=
  ⟨rfl, c10_nospace_unchanged 4096 wCramped 0 (List.replicate 16 7) none wCramped rfl⟩

theorem c4_witness :
    ((∃ s, apfs_btree_insert 4096 wCramped 0 (List.replicate 16 7) none =
        .noSpace s) ↔
      (wCramped.mem.free + (List.replicate 16 7).length +
          ((none : Option (List Nat)).getD []).length > wCramped.mem.data ∨
        (56 + (wCramped.mem.records + 1) * tocEntrySize wCramped.mem.fixedKv >
            wCramped.mem.key ∧
          wCramped.mem.free + 8 * tocEntrySize wCramped.mem.fixedKv +
            (List.replicate 16 7).length +
            ((none : Option (List Nat)).getD []).length > wCramped.mem.data))) ∧
    (¬ (wCramped.mem.free + (List.replicate 16 7).length +
          ((none : Option (List Nat)).getD []).length > wCramped.mem.data ∨
        (56 + (wCramped.mem.records + 1) * tocEntrySize wCramped.mem.fixedKv >
            wCramped.mem.key ∧
          wCramped.mem.free + 8 * tocEntrySize wCramped.mem.fixedKv +
            (List.replicate 16 7).length +
            ((none : Option (List Nat)).getD []).length > wCramped.mem.data)) →
      ∃ s, apfs_btree_insert 4096 wCramped 0 (List.replicate 16 7) none =
        .ok s (0 + 1)) :=
  c4_insert_nospace_iff 4096 wCramped 0 (List.replicate 16 7) none

/-! ## Characterization of the whole insert body -/

theorem insertCore_mem (bs : Nat) (st : NodeState) (qidx : Int) (keyB : List Nat)
    (val : Option (List Nat)) :
    (insertCore bs st qidx keyB val).mem = { st.mem with
      records := st.mem.records + 1
      free := st.mem.free + keyB.length
      data := st.mem.data - (val.getD []).length } := by
  rcases val with _ | v <;>
    simp [insertCore, bumpCounters_mem, valWrite_mem, keyAppend_mem, tocWrite_mem]

theorem insertCore_flags (bs : Nat) (st : NodeState) (qidx : Int) (keyB : List Nat)
    (val : Option (List Nat)) :
    (insertCore bs st qidx keyB val).dirty = true ∧
      (insertCore bs st qidx keyB val).csum = true := by
  rcases val with _ | v <;> exact ⟨rfl, rfl⟩

theorem insertCore_raw_other {bs : Nat} {st : NodeState} {qidx : Int}
    {keyB : List Nat} {val : Option (List Nat)} {i : Nat}
    (hp : (qidx + 1).toNat ≤ st.mem.records) (hbs : 64 ≤ bs)
    (hvd : (val.getD []).length ≤ st.mem.data)
    (h1 : i < 56 + tocEntrySize st.mem.fixedKv * (qidx + 1).toNat ∨
      56 + tocEntrySize st.mem.fixedKv * (st.mem.records + 1) ≤ i)
    (h2 : i < 36 ∨ 40 ≤ i) (h3 : i < 44 ∨ 48 ≤ i)
    (h4 : i < st.mem.free ∨ st.mem.free + keyB.length ≤ i)
    (h5 : i < st.mem.data - (val.getD []).length ∨ st.mem.data ≤ i)
    (h6 : i < bs - 24 ∨ bs - 8 ≤ i) :
    (insertCore bs st qidx keyB val).raw i = st.raw i := by
  rcases val with _ | v
  · simp only [insertCore]
    rw [bumpCounters_raw_other hbs h2 h6]
    rw [keyAppend_raw_other (by simp [tocWrite_mem]; omega) h3]
    rw [tocWrite_raw_other hp (by simpa using h1)]
  · simp only [insertCore]
    rw [bumpCounters_raw_other hbs h2 h6]
    rw [valWrite_raw_other (by simp [keyAppend_mem, tocWrite_mem]; simp at h5; omega)
      (by omega) (by simp [keyAppend_mem, tocWrite_mem]; simp at hvd; omega)]
    rw [keyAppend_raw_other (by simp [tocWrite_mem]; omega) h3]
    rw [tocWrite_raw_other hp (by simpa using h1)]

theorem insertCore_shifted {bs : Nat} {st : NodeState} {qidx : Int}
    {keyB : List Nat} {val : Option (List Nat)} {j i : Nat}
    (hwf : NodeWF bs st)
    (hfit : st.mem.free + keyB.length + (val.getD []).length ≤ st.mem.data)
    (hng : 56 + (st.mem.records + 1) * tocEntrySize st.mem.fixedKv ≤ st.mem.key)
    (hp : (qidx + 1).toNat ≤ j) (hj : j < st.mem.records)
    (hi : i < tocEntrySize st.mem.fixedKv) :
    (insertCore bs st qidx keyB val).raw (56 + tocEntrySize st.mem.fixedKv * (j + 1) + i) =
      st.raw (56 + tocEntrySize st.mem.fixedKv * j + i) := by
  obtain ⟨hw1, hw2, hw3, hw4⟩ := hwf
  have hng2 : 56 + tocEntrySize st.mem.fixedKv * (st.mem.records + 1) ≤ st.mem.key := by
    rwa [Nat.mul_comm] at hng
  have hq : 56 + tocEntrySize st.mem.fixedKv * (j + 1) + i < st.mem.key := by
    have : tocEntrySize st.mem.fixedKv * (j + 1) + tocEntrySize st.mem.fixedKv ≤
        tocEntrySize st.mem.fixedKv * (st.mem.records + 1) := by
      have : j + 1 + 1 ≤ st.mem.records + 1 := by omega
      calc tocEntrySize st.mem.fixedKv * (j + 1) + tocEntrySize st.mem.fixedKv
          = tocEntrySize st.mem.fixedKv * (j + 1 + 1) := by ring
        _ ≤ tocEntrySize st.mem.fixedKv * (st.mem.records + 1) :=
            Nat.mul_le_mul_left _ this
    omega
  rcases val with _ | v
  · simp only [insertCore]
    rw [bumpCounters_raw_other (by omega) (by omega) (by omega)]
    rw [keyAppend_raw_other (by simp [tocWrite_mem]; omega) (by omega)]
    exact tocWrite_shifted hp hj hi
  · have hfit2 : st.mem.free + keyB.length + v.length ≤ st.mem.data := by
      simpa using hfit
    simp only [insertCore]
    rw [bumpCounters_raw_other (by omega) (by omega) (by omega)]
    rw [valWrite_raw_other (by simp [keyAppend_mem, tocWrite_mem]; omega) (by omega)
      (by simp [keyAppend_mem, tocWrite_mem]; omega)]
    rw [keyAppend_raw_other (by simp [tocWrite_mem]; omega) (by omega)]
    exact tocWrite_shifted hp hj hi

theorem insertCore_keybytes {bs : Nat} {st : NodeState} {qidx : Int}
    {keyB : List Nat} {val : Option (List Nat)} {i : Nat}
    (hwf : NodeWF bs st)
    (hfit : st.mem.free + keyB.length + (val.getD []).length ≤ st.mem.data)
    (hi : i < keyB.length) :
    (insertCore bs st qidx keyB val).raw (st.mem.free + i) = keyB.getD i 0 % 256 := by
  obtain ⟨hw1, hw2, hw3, hw4⟩ := hwf
  have h56 : 56 ≤ st.mem.free := by omega
  rcases val with _ | v
  · simp only [insertCore, Option.getD_none, Option.isNone_none, List.length_nil]
    rw [bumpCounters_raw_other (by omega) (by omega) (by simp at hfit ⊢; omega)]
    have hf1 : (tocWrite bs st (qidx + 1).toNat keyB.length 0 true).mem.free =
        st.mem.free := by rw [tocWrite_mem]
    rw [← hf1]
    exact keyAppend_bytes hi (by rw [hf1]; omega)
  · simp only [insertCore, Option.getD_some, Option.isNone_some]
    rw [bumpCounters_raw_other (by omega) (by omega) (by simp at hfit ⊢; omega)]
    rw [valWrite_raw_other (by simp [keyAppend_mem, tocWrite_mem]; simp at hfit; omega)
      (by omega) (by simp [keyAppend_mem, tocWrite_mem]; simp at hfit; omega)]
    have hf1 : (tocWrite bs st (qidx + 1).toNat keyB.length v.length false).mem.free =
        st.mem.free := by rw [tocWrite_mem]
    rw [← hf1]
    exact keyAppend_bytes hi (by rw [hf1]; omega)

theorem insertCore_valbytes {bs : Nat} {st : NodeState} {qidx : Int}
    {keyB : List Nat} {v : List Nat} {i : Nat}
    (hwf : NodeWF bs st)
    (hfit : st.mem.free + keyB.length + v.length ≤ st.mem.data)
    (hi : i < v.length) :
    (insertCore bs st qidx keyB (some v)).raw (st.mem.data - v.length + i) =
      v.getD i 0 % 256 := by
  obtain ⟨hw1, hw2, hw3, hw4⟩ := hwf
  simp only [insertCore, Option.getD_some, Option.isNone_some]
  rw [bumpCounters_raw_other (by omega) (by omega) (by omega)]
  have hd1 : (keyAppend (tocWrite bs st (qidx + 1).toNat keyB.length v.length false)
      keyB).mem.data = st.mem.data := by rw [keyAppend_mem, tocWrite_mem]
  rw [← hd1]
  exact valWrite_bytes hi (by rw [hd1]; omega)

theorem insertCore_nkeys {bs : Nat} {st : NodeState} (qidx : Int) (keyB : List Nat)
    (val : Option (List Nat)) (hbs : 64 ≤ bs) :
    r32 (insertCore bs st qidx keyB val).raw 36 =
      (st.mem.records + 1) % 4294967296 := by
  rcases val with _ | v
  · simp only [insertCore, Option.getD_none, Option.isNone_none, List.length_nil]
    rw [bumpCounters_nkeys _ _ _ hbs]
    simp [keyAppend_mem, tocWrite_mem]
  · simp only [insertCore, Option.getD_some, Option.isNone_some]
    rw [bumpCounters_nkeys _ _ _ hbs]
    simp [valWrite_mem, keyAppend_mem, tocWrite_mem]

theorem insertCore_keycount {bs : Nat} {st : NodeState} (qidx : Int) (keyB : List Nat)
    (val : Option (List Nat)) (hwf : NodeWF bs st)
    (hfit : st.mem.free + keyB.length + (val.getD []).length ≤ st.mem.data)
    (hng : 56 + (st.mem.records + 1) * tocEntrySize st.mem.fixedKv ≤ st.mem.key)
    (hp : (qidx + 1).toNat ≤ st.mem.records) :
    r64 (insertCore bs st qidx keyB val).raw (bs - 16) =
      (r64 st.raw (bs - 16) + 1) % 18446744073709551616 := by
  obtain ⟨hw1, hw2, hw3, hw4⟩ := hwf
  have hng2 : 56 + tocEntrySize st.mem.fixedKv * (st.mem.records + 1) ≤ st.mem.key := by
    rwa [Nat.mul_comm] at hng
  rcases val with _ | v
  · simp only [insertCore, Option.getD_none, Option.isNone_none, List.length_nil]
    rw [bumpCounters_keycount _ _ _ (by omega)]
    congr 1
    refine congrArg (· + 1) ?_
    refine r64_ext st.raw (fun k hk1 hk2 => ?_)
    rw [keyAppend_raw_other (by simp [tocWrite_mem]; simp at hfit; omega) (by omega)]
    rw [tocWrite_raw_other hp (by omega)]
  · have hfit2 : st.mem.free + keyB.length + v.length ≤ st.mem.data := by simpa using hfit
    simp only [insertCore, Option.getD_some, Option.isNone_some]
    rw [bumpCounters_keycount _ _ _ (by omega)]
    congr 1
    refine congrArg (· + 1) ?_
    refine r64_ext st.raw (fun k hk1 hk2 => ?_)
    rw [valWrite_raw_other (by simp [keyAppend_mem, tocWrite_mem]; omega) (by omega)
      (by simp [keyAppend_mem, tocWrite_mem]; omega)]
    rw [keyAppend_raw_other (by simp [tocWrite_mem]; omega) (by omega)]
    rw [tocWrite_raw_other hp (by omega)]

theorem insertCore_longkey {bs : Nat} {st : NodeState} (qidx : Int) (keyB : List Nat)
    (val : Option (List Nat)) (hwf : NodeWF bs st)
    (hfit : st.mem.free + keyB.length + (val.getD []).length ≤ st.mem.data)
    (hng : 56 + (st.mem.records + 1) * tocEntrySize st.mem.fixedKv ≤ st.mem.key)
    (hp : (qidx + 1).toNat ≤ st.mem.records) (hbs16 : bs ≤ 65536) :
    r32 (insertCore bs st qidx keyB val).raw (bs - 24) =
      max (r32 st.raw (bs - 24)) keyB.length := by
  obtain ⟨hw1, hw2, hw3, hw4⟩ := hwf
  have hng2 : 56 + tocEntrySize st.mem.fixedKv * (st.mem.records + 1) ≤ st.mem.key := by
    rwa [Nat.mul_comm] at hng
  rcases val with _ | v
  · simp only [insertCore, Option.getD_none, Option.isNone_none, List.length_nil]
    rw [bumpCounters_longkey _ _ _ (by omega) (by simp at hfit; omega)]
    congr 1
    refine r32_ext st.raw (fun k hk1 hk2 => ?_)
    rw [keyAppend_raw_other (by simp [tocWrite_mem]; simp at hfit; omega) (by omega)]
    rw [tocWrite_raw_other hp (by omega)]
  · have hfit2 : st.mem.free + keyB.length + v.length ≤ st.mem.data := by simpa using hfit
    simp only [insertCore, Option.getD_some, Option.isNone_some]
    rw [bumpCounters_longkey _ _ _ (by omega) (by omega)]
    congr 1
    refine r32_ext st.raw (fun k hk1 hk2 => ?_)
    rw [valWrite_raw_other (by simp [keyAppend_mem, tocWrite_mem]; omega) (by omega)
      (by simp [keyAppend_mem, tocWrite_mem]; omega)]
    rw [keyAppend_raw_other (by simp [tocWrite_mem]; omega) (by omega)]
    rw [tocWrite_raw_other hp (by omega)]

theorem insertCore_longval {bs : Nat} {st : NodeState} (qidx : Int) (keyB : List Nat)
    (val : Option (List Nat)) (hwf : NodeWF bs st)
    (hfit : st.mem.free + keyB.length + (val.getD []).length ≤ st.mem.data)
    (hng : 56 + (st.mem.records + 1) * tocEntrySize st.mem.fixedKv ≤ st.mem.key)
    (hp : (qidx + 1).toNat ≤ st.mem.records) (hbs16 : bs ≤ 65536) :
    r32 (insertCore bs st qidx keyB val).raw (bs - 20) =
      max (r32 st.raw (bs - 20)) (val.getD []).length := by
  obtain ⟨hw1, hw2, hw3, hw4⟩ := hwf
  have hng2 : 56 + tocEntrySize st.mem.fixedKv * (st.mem.records + 1) ≤ st.mem.key := by
    rwa [Nat.mul_comm] at hng
  rcases val with _ | v
  · simp only [insertCore, Option.getD_none, Option.isNone_none, List.length_nil]
    rw [bumpCounters_longval _ _ _ (by omega) (by omega)]
    congr 1
    refine r32_ext st.raw (fun k hk1 hk2 => ?_)
    rw [keyAppend_raw_other (by simp [tocWrite_mem]; simp at hfit; omega) (by omega)]
    rw [tocWrite_raw_other hp (by omega)]
  · have hfit2 : st.mem.free + keyB.length + v.length ≤ st.mem.data := by simpa using hfit
    simp only [insertCore, Option.getD_some, Option.isNone_some]
    rw [bumpCounters_longval _ _ _ (by omega) (by omega)]
    congr 1
    refine r32_ext st.raw (fun k hk1 hk2 => ?_)
    rw [valWrite_raw_other (by simp [keyAppend_mem, tocWrite_mem]; omega) (by omega)
      (by simp [keyAppend_mem, tocWrite_mem]; omega)]
    rw [keyAppend_raw_other (by simp [tocWrite_mem]; omega) (by omega)]
    rw [tocWrite_raw_other hp (by omega)]

theorem insertCore_slot_fixed_k {bs : Nat} {st : NodeState} (qidx : Int)
    (keyB : List Nat) (val : Option (List Nat)) (hwf : NodeWF bs st)
    (hbs16 : bs ≤ 65536)
    (hfit : st.mem.free + keyB.length + (val.getD []).length ≤ st.mem.data)
    (hng : 56 + (st.mem.records + 1) * tocEntrySize st.mem.fixedKv ≤ st.mem.key)
    (hp : (qidx + 1).toNat ≤ st.mem.records) (hfx : st.mem.fixedKv = true) :
    r16 (insertCore bs st qidx keyB val).raw (56 + 4 * (qidx + 1).toNat) =
      st.mem.free - st.mem.key := by
  obtain ⟨hw1, hw2, hw3, hw4⟩ := hwf
  have hng2 : 56 + (st.mem.records + 1) * 4 ≤ st.mem.key := by
    rw [hfx] at hng
    simpa [tocEntrySize] using hng
  have hp4 : 4 * (qidx + 1).toNat + 4 ≤ (st.mem.records + 1) * 4 := by omega
  rcases val with _ | v
  · have heq : r16 (insertCore bs st qidx keyB none).raw (56 + 4 * (qidx + 1).toNat) =
        r16 (tocWrite bs st (qidx + 1).toNat keyB.length 0 true).raw
          (56 + 4 * (qidx + 1).toNat) := by
      refine r16_ext _ (fun k hk1 hk2 => ?_)
      simp only [insertCore, Option.getD_none, Option.isNone_none, List.length_nil]
      rw [bumpCounters_raw_other (by omega) (by omega) (by omega)]
      rw [keyAppend_raw_other (by simp [tocWrite_mem]; omega) (by omega)]
    rw [heq]
    have := @tocWrite_fixed_k bs st ((qidx + 1).toNat) keyB.length 0 true hfx
    rw [this, Nat.mod_eq_of_lt (by omega)]
  · have hfit2 : st.mem.free + keyB.length + v.length ≤ st.mem.data := by simpa using hfit
    have heq : r16 (insertCore bs st qidx keyB (some v)).raw (56 + 4 * (qidx + 1).toNat) =
        r16 (tocWrite bs st (qidx + 1).toNat keyB.length v.length false).raw
          (56 + 4 * (qidx + 1).toNat) := by
      refine r16_ext _ (fun k hk1 hk2 => ?_)
      simp only [insertCore, Option.getD_some, Option.isNone_some]
      rw [bumpCounters_raw_other (by omega) (by omega) (by omega)]
      rw [valWrite_raw_other (by simp [keyAppend_mem, tocWrite_mem]; omega) (by omega)
        (by simp [keyAppend_mem, tocWrite_mem]; omega)]
      rw [keyAppend_raw_other (by simp [tocWrite_mem]; omega) (by omega)]
    rw [heq]
    have := @tocWrite_fixed_k bs st ((qidx + 1).toNat) keyB.length v.length false hfx
    rw [this, Nat.mod_eq_of_lt (by omega)]

theorem insertCore_r16_toc {bs : Nat} {st : NodeState} (qidx : Int) (keyB : List Nat)
    (val : Option (List Nat)) {o : Nat} (hwf : NodeWF bs st)
    (hfit : st.mem.free + keyB.length + (val.getD []).length ≤ st.mem.data)
    (ho : 48 ≤ o) (hok : o + 2 ≤ st.mem.key) :
    r16 (insertCore bs st qidx keyB val).raw o =
      r16 (tocWrite bs st (qidx + 1).toNat keyB.length (val.getD []).length
        val.isNone).raw o := by
  obtain ⟨hw1, hw2, hw3, hw4⟩ := hwf
  rcases val with _ | v
  · refine r16_ext _ (fun k hk1 hk2 => ?_)
    simp only [insertCore, Option.getD_none, Option.isNone_none, List.length_nil]
    rw [bumpCounters_raw_other (by omega) (by omega) (by omega)]
    rw [keyAppend_raw_other (by simp [tocWrite_mem]; omega) (by omega)]
  · have hfit2 : st.mem.free + keyB.length + v.length ≤ st.mem.data := by simpa using hfit
    refine r16_ext _ (fun k hk1 hk2 => ?_)
    simp only [insertCore, Option.getD_some, Option.isNone_some]
    rw [bumpCounters_raw_other (by omega) (by omega) (by omega)]
    rw [valWrite_raw_other (by simp [keyAppend_mem, tocWrite_mem]; omega) (by omega)
      (by simp [keyAppend_mem, tocWrite_mem]; omega)]
    rw [keyAppend_raw_other (by simp [tocWrite_mem]; omega) (by omega)]

theorem insertCore_slot_fixed_v_ghost {bs : Nat} {st : NodeState} (qidx : Int)
    (keyB : List Nat) (hwf : NodeWF bs st)
    (hfit : st.mem.free + keyB.length ≤ st.mem.data)
    (hng : 56 + (st.mem.records + 1) * tocEntrySize st.mem.fixedKv ≤ st.mem.key)
    (hp : (qidx + 1).toNat ≤ st.mem.records) (hfx : st.mem.fixedKv = true) :
    r16 (insertCore bs st qidx keyB none).raw (56 + 4 * (qidx + 1).toNat + 2) =
      65535 := by
  have hng2 : 56 + (st.mem.records + 1) * 4 ≤ st.mem.key := by
    rw [hfx] at hng
    simpa [tocEntrySize] using hng
  rw [insertCore_r16_toc qidx keyB none hwf (by simpa using hfit) (by omega) (by omega)]
  have := @tocWrite_fixed_v bs st ((qidx + 1).toNat) keyB.length
    ((none : Option (List Nat)).getD []).length (none : Option (List Nat)).isNone hfx
  simpa using this

theorem insertCore_slot_fixed_v_val {bs : Nat} {st : NodeState} (qidx : Int)
    (keyB v : List Nat) (hwf : NodeWF bs st) (hbs16 : bs ≤ 65536)
    (hfit : st.mem.free + keyB.length + v.length ≤ st.mem.data)
    (hng : 56 + (st.mem.records + 1) * tocEntrySize st.mem.fixedKv ≤ st.mem.key)
    (hp : (qidx + 1).toNat ≤ st.mem.records) (hfx : st.mem.fixedKv = true) :
    r16 (insertCore bs st qidx keyB (some v)).raw (56 + 4 * (qidx + 1).toNat + 2) =
      v.length := by
  obtain ⟨hw1, hw2, hw3, hw4⟩ := hwf
  have hng2 : 56 + (st.mem.records + 1) * 4 ≤ st.mem.key := by
    rw [hfx] at hng
    simpa [tocEntrySize] using hng
  rw [insertCore_r16_toc qidx keyB (some v) ⟨hw1, hw2, hw3, hw4⟩ (by simpa using hfit)
    (by omega) (by omega)]
  have := @tocWrite_fixed_v bs st ((qidx + 1).toNat) keyB.length
    ((some v).getD []).length (some v).isNone hfx
  rw [this]
  simp [Nat.mod_eq_of_lt (show v.length < 65536 by omega)]

theorem insertCore_slot_var_koff {bs : Nat} {st : NodeState} (qidx : Int)
    (keyB : List Nat) (val : Option (List Nat)) (hwf : NodeWF bs st)
    (hbs16 : bs ≤ 65536)
    (hfit : st.mem.free + keyB.length + (val.getD []).length ≤ st.mem.data)
    (hng : 56 + (st.mem.records + 1) * tocEntrySize st.mem.fixedKv ≤ st.mem.key)
    (hp : (qidx + 1).toNat ≤ st.mem.records) (hfx : st.mem.fixedKv = false) :
    r16 (insertCore bs st qidx keyB val).raw (56 + 8 * (qidx + 1).toNat) =
      st.mem.free - st.mem.key := by
  obtain ⟨hw1, hw2, hw3, hw4⟩ := hwf
  have hng2 : 56 + (st.mem.records + 1) * 8 ≤ st.mem.key := by
    rw [hfx] at hng
    simpa [tocEntrySize] using hng
  rw [insertCore_r16_toc qidx keyB val ⟨hw1, hw2, hw3, hw4⟩ hfit (by omega) (by omega)]
  rw [tocWrite_var_koff hfx, Nat.mod_eq_of_lt (by omega)]

theorem insertCore_slot_var_klen {bs : Nat} {st : NodeState} (qidx : Int)
    (keyB : List Nat) (val : Option (List Nat)) (hwf : NodeWF bs st)
    (hbs16 : bs ≤ 65536)
    (hfit : st.mem.free + keyB.length + (val.getD []).length ≤ st.mem.data)
    (hng : 56 + (st.mem.records + 1) * tocEntrySize st.mem.fixedKv ≤ st.mem.key)
    (hp : (qidx + 1).toNat ≤ st.mem.records) (hfx : st.mem.fixedKv = false) :
    r16 (insertCore bs st qidx keyB val).raw (56 + 8 * (qidx + 1).toNat + 2) =
      keyB.length := by
  obtain ⟨hw1, hw2, hw3, hw4⟩ := hwf
  have hng2 : 56 + (st.mem.records + 1) * 8 ≤ st.mem.key := by
    rw [hfx] at hng
    simpa [tocEntrySize] using hng
  rw [insertCore_r16_toc qidx keyB val ⟨hw1, hw2, hw3, hw4⟩ hfit (by omega) (by omega)]
  rw [tocWrite_var_klen hfx, Nat.mod_eq_of_lt (by omega)]

theorem insertCore_slot_var_voff {bs : Nat} {st : NodeState} (qidx : Int)
    (keyB : List Nat) (val : Option (List Nat)) (hwf : NodeWF bs st)
    (hbs16 : bs ≤ 65536)
    (hfit : st.mem.free + keyB.length + (val.getD []).length ≤ st.mem.data)
    (hng : 56 + (st.mem.records + 1) * tocEntrySize st.mem.fixedKv ≤ st.mem.key)
    (hp : (qidx + 1).toNat ≤ st.mem.records) (hfx : st.mem.fixedKv = false) :
    r16 (insertCore bs st qidx keyB val).raw (56 + 8 * (qidx + 1).toNat + 4) =
      bs - st.mem.data - 40 + (val.getD []).length := by
  obtain ⟨hw1, hw2, hw3, hw4⟩ := hwf
  have hng2 : 56 + (st.mem.records + 1) * 8 ≤ st.mem.key := by
    rw [hfx] at hng
    simpa [tocEntrySize] using hng
  rw [insertCore_r16_toc qidx keyB val ⟨hw1, hw2, hw3, hw4⟩ hfit (by omega) (by omega)]
  rw [tocWrite_var_voff hfx, Nat.mod_eq_of_lt (by omega)]

theorem insertCore_slot_var_vlen {bs : Nat} {st : NodeState} (qidx : Int)
    (keyB : List Nat) (val : Option (List Nat)) (hwf : NodeWF bs st)
    (hbs16 : bs ≤ 65536)
    (hfit : st.mem.free + keyB.length + (val.getD []).length ≤ st.mem.data)
    (hng : 56 + (st.mem.records + 1) * tocEntrySize st.mem.fixedKv ≤ st.mem.key)
    (hp : (qidx + 1).toNat ≤ st.mem.records) (hfx : st.mem.fixedKv = false) :
    r16 (insertCore bs st qidx keyB val).raw (56 + 8 * (qidx + 1).toNat + 6) =
      (val.getD []).length := by
  obtain ⟨hw1, hw2, hw3, hw4⟩ := hwf
  have hng2 : 56 + (st.mem.records + 1) * 8 ≤ st.mem.key := by
    rw [hfx] at hng
    simpa [tocEntrySize] using hng
  rw [insertCore_r16_toc qidx keyB val ⟨hw1, hw2, hw3, hw4⟩ hfit (by omega) (by omega)]
  rw [tocWrite_var_vlen hfx, Nat.mod_eq_of_lt (by omega)]

theorem insertCore_r16_42 {bs : Nat} {st : NodeState} (qidx : Int) (keyB : List Nat)
    (val : Option (List Nat)) (hwf : NodeWF bs st)
    (hfit : st.mem.free + keyB.length + (val.getD []).length ≤ st.mem.data)
    (hp : (qidx + 1).toNat ≤ st.mem.records) :
    r16 (insertCore bs st qidx keyB val).raw 42 = r16 st.raw 42 := by
  obtain ⟨hw1, hw2, hw3, hw4⟩ := hwf
  rcases val with _ | v
  · refine r16_ext _ (fun k hk1 hk2 => ?_)
    simp only [insertCore, Option.getD_none, Option.isNone_none, List.length_nil]
    rw [bumpCounters_raw_other (by omega) (by omega) (by omega)]
    rw [keyAppend_raw_other (by simp [tocWrite_mem]; omega) (by omega)]
    rw [tocWrite_raw_other hp (by omega)]
  · have hfit2 : st.mem.free + keyB.length + v.length ≤ st.mem.data := by simpa using hfit
    refine r16_ext _ (fun k hk1 hk2 => ?_)
    simp only [insertCore, Option.getD_some, Option.isNone_some]
    rw [bumpCounters_raw_other (by omega) (by omega) (by omega)]
    rw [valWrite_raw_other (by simp [keyAppend_mem, tocWrite_mem]; omega) (by omega)
      (by simp [keyAppend_mem, tocWrite_mem]; omega)]
    rw [keyAppend_raw_other (by simp [tocWrite_mem]; omega) (by omega)]
    rw [tocWrite_raw_other hp (by omega)]

theorem insertCore_r16_46 {bs : Nat} {st : NodeState} (qidx : Int) (keyB : List Nat)
    (val : Option (List Nat)) (hwf : NodeWF bs st)
    (hfit : st.mem.free + keyB.length + (val.getD []).length ≤ st.mem.data)
    (hp : (qidx + 1).toNat ≤ st.mem.records) :
    r16 (insertCore bs st qidx keyB val).raw 46 =
      (((r16 st.raw 46 : Int) - keyB.length - (val.getD []).length) % 65536).toNat := by
  obtain ⟨hw1, hw2, hw3, hw4⟩ := hwf
  rcases val with _ | v
  · have heq : r16 (insertCore bs st qidx keyB none).raw 46 =
        r16 (keyAppend (tocWrite bs st (qidx + 1).toNat keyB.length 0 true) keyB).raw
          46 := by
      refine r16_ext _ (fun k hk1 hk2 => ?_)
      simp only [insertCore, Option.getD_none, Option.isNone_none, List.length_nil]
      rw [bumpCounters_raw_other (by omega) (by omega) (by omega)]
    rw [heq, keyAppend_r16_46 (by simp [tocWrite_mem]; omega)]
    have heq2 : r16 (tocWrite bs st (qidx + 1).toNat keyB.length 0 true).raw 46 =
        r16 st.raw 46 :=
      r16_ext _ (fun k hk1 hk2 => tocWrite_raw_other hp (by omega))
    rw [heq2]
    simp
  · have hfit2 : st.mem.free + keyB.length + v.length ≤ st.mem.data := by simpa using hfit
    have heq : r16 (insertCore bs st qidx keyB (some v)).raw 46 =
        r16 (valWrite (keyAppend (tocWrite bs st (qidx + 1).toNat keyB.length v.length
          false) keyB) v).raw 46 := by
      refine r16_ext _ (fun k hk1 hk2 => ?_)
      simp only [insertCore, Option.getD_some, Option.isNone_some]
      rw [bumpCounters_raw_other (by omega) (by omega) (by omega)]
    rw [heq, valWrite_r16_46 (by simp [keyAppend_mem, tocWrite_mem]; omega),
      keyAppend_r16_46 (by simp [tocWrite_mem]; omega)]
    have heq2 : r16 (tocWrite bs st (qidx + 1).toNat keyB.length v.length false).raw 46 =
        r16 st.raw 46 :=
      r16_ext _ (fun k hk1 hk2 => tocWrite_raw_other hp (by omega))
    rw [heq2]
    simp only [Option.getD_some]
    omega

/-! ## The C3 claim -/

/-- C3 (amended): `btree_insert` on a root-and-leaf node places the new
record immediately after the slot returned by the query (the query
returns the record preceding the new key; the code's own header comment
says "before", but the implementation increments the index first): it
increments the query index, shifts the table-of-contents entries from
that index through `N` one slot right, writes the new slot there
(fixed-kv: key offset `free - key_base` and value field `val_len`, or
the ghost sentinel `0xFFFF` when `val` is absent; variable-kv: key
offset and length, and value offset measured from the block end minus
the tree-info trailer size), appends the key bytes at `free` advancing
`free` by `key_len`, prepends the value bytes at `data - val_len`
decreasing `data` (skipped entirely for a ghost, leaving `data`
unchanged), then increments `N` and `bt_key_count` by one and raises
`bt_longest_key` and `bt_longest_val` to the running maxima. -/
theorem c3_insert_places_record (bs : Nat) (st : NodeState) (qidx : Int)
    (keyB : List Nat) (val : Option (List Nat))
    (hwf : NodeWF bs st) (hbs16 : bs ≤ 65536)
    (hfit : st.mem.free + keyB.length + (val.getD []).length ≤ st.mem.data)
    (hng : 56 + (st.mem.records + 1) * tocEntrySize st.mem.fixedKv ≤ st.mem.key)
    (hq0 : 0 ≤ qidx + 1) (hqN : qidx + 1 ≤ (st.mem.records : Int)) :
    ∃ st2, apfs_btree_insert bs st qidx keyB val = .ok st2 (qidx + 1) ∧
      st2.mem.records = st.mem.records + 1 ∧
      st2.mem.key = st.mem.key ∧
      st2.mem.free = st.mem.free + keyB.length ∧
      st2.mem.data = st.mem.data - (val.getD []).length ∧
      (val = none → st2.mem.data = st.mem.data) ∧
      r32 st2.raw 36 = (st.mem.records + 1) % 4294967296 ∧
      r64 st2.raw (bs - 16) = (r64 st.raw (bs - 16) + 1) % 18446744073709551616 ∧
      (∀ i, i < keyB.length → st2.raw (st.mem.free + i) = keyB.getD i 0 % 256) ∧
      (∀ v, val = some v → ∀ i, i < v.length →
        st2.raw (st.mem.data - v.length + i) = v.getD i 0 % 256) ∧
      (st.mem.fixedKv = true →
        r16 st2.raw (56 + 4 * (qidx + 1).toNat) = st.mem.free - st.mem.key ∧
        (val = none → r16 st2.raw (56 + 4 * (qidx + 1).toNat + 2) = 65535) ∧
        (∀ v, val = some v →
          r16 st2.raw (56 + 4 * (qidx + 1).toNat + 2) = v.length)) ∧
      (st.mem.fixedKv = false →
        r16 st2.raw (56 + 8 * (qidx + 1).toNat) = st.mem.free - st.mem.key ∧
        r16 st2.raw (56 + 8 * (qidx + 1).toNat + 2) = keyB.length ∧
        r16 st2.raw (56 + 8 * (qidx + 1).toNat + 4) =
          bs - st.mem.data - 40 + (val.getD []).length ∧
        r16 st2.raw (56 + 8 * (qidx + 1).toNat + 6) = (val.getD []).length) ∧
      (∀ j, (qidx + 1).toNat ≤ j → j < st.mem.records → ∀ i,
        i < tocEntrySize st.mem.fixedKv →
        st2.raw (56 + tocEntrySize st.mem.fixedKv * (j + 1) + i) =
          st.raw (56 + tocEntrySize st.mem.fixedKv * j + i)) ∧
      (∀ j, j < (qidx + 1).toNat → ∀ i, i < tocEntrySize st.mem.fixedKv →
        st2.raw (56 + tocEntrySize st.mem.fixedKv * j + i) =
          st.raw (56 + tocEntrySize st.mem.fixedKv * j + i)) ∧
      r32 st2.raw (bs - 24) = max (r32 st.raw (bs - 24)) keyB.length ∧
      r32 st2.raw (bs - 20) = max (r32 st.raw (bs - 20)) (val.getD []).length ∧
      st2.dirty = true ∧ st2.csum = true := by
  obtain ⟨hw1, hw2, hw3, hw4⟩ := hwf
  have hp : (qidx + 1).toNat ≤ st.mem.records := by omega
  have hbs64 : 64 ≤ bs := by omega
  refine ⟨insertCore bs st qidx keyB val, ?_, ?_, ?_, ?_, ?_, ?_, ?_, ?_, ?_, ?_, ?_,
    ?_, ?_, ?_, ?_, ?_, ?_, ?_⟩
  · simp only [apfs_btree_insert]
    rw [if_neg (by omega), if_neg (by omega)]
  · rw [insertCore_mem]
  · rw [insertCore_mem]
  · rw [insertCore_mem]
  · rw [insertCore_mem]
  · intro hv
    subst hv
    simp [insertCore_mem]
  · exact insertCore_nkeys qidx keyB val hbs64
  · exact insertCore_keycount qidx keyB val ⟨hw1, hw2, hw3, hw4⟩ hfit hng hp
  · intro i hi
    exact insertCore_keybytes ⟨hw1, hw2, hw3, hw4⟩ hfit hi
  · intro v hv i hi
    subst hv
    exact insertCore_valbytes ⟨hw1, hw2, hw3, hw4⟩ (by simpa using hfit) hi
  · intro hfx
    refine ⟨insertCore_slot_fixed_k qidx keyB val ⟨hw1, hw2, hw3, hw4⟩ hbs16 hfit hng
      hp hfx, ?_, ?_⟩
    · intro hv
      subst hv
      exact insertCore_slot_fixed_v_ghost qidx keyB ⟨hw1, hw2, hw3, hw4⟩
        (by simpa using hfit) hng hp hfx
    · intro v hv
      subst hv
      exact insertCore_slot_fixed_v_val qidx keyB v ⟨hw1, hw2, hw3, hw4⟩ hbs16
        (by simpa using hfit) hng hp hfx
  · intro hfx
    exact ⟨insertCore_slot_var_koff qidx keyB val ⟨hw1, hw2, hw3, hw4⟩ hbs16 hfit hng
        hp hfx,
      insertCore_slot_var_klen qidx keyB val ⟨hw1, hw2, hw3, hw4⟩ hbs16 hfit hng hp hfx,
      insertCore_slot_var_voff qidx keyB val ⟨hw1, hw2, hw3, hw4⟩ hbs16 hfit hng hp hfx,
      insertCore_slot_var_vlen qidx keyB val ⟨hw1, hw2, hw3, hw4⟩ hbs16 hfit hng hp hfx⟩
  · intro j hj1 hj2 i hi
    exact insertCore_shifted ⟨hw1, hw2, hw3, hw4⟩ hfit hng hj1 hj2 hi
  · intro j hj i hi
    have hm1 : tocEntrySize st.mem.fixedKv * j + tocEntrySize st.mem.fixedKv ≤
        tocEntrySize st.mem.fixedKv * (qidx + 1).toNat := by
      calc tocEntrySize st.mem.fixedKv * j + tocEntrySize st.mem.fixedKv
          = tocEntrySize st.mem.fixedKv * (j + 1) := by ring
        _ ≤ tocEntrySize st.mem.fixedKv * (qidx + 1).toNat :=
            Nat.mul_le_mul_left _ (by omega)
    have hm2 : tocEntrySize st.mem.fixedKv * (qidx + 1).toNat ≤
        tocEntrySize st.mem.fixedKv * st.mem.records :=
      Nat.mul_le_mul_left _ hp
    have hw1c : 56 + tocEntrySize st.mem.fixedKv * st.mem.records ≤ st.mem.key := by
      rwa [Nat.mul_comm] at hw1
    exact insertCore_raw_other hp hbs64 (by omega) (Or.inl (by omega)) (by omega)
      (by omega) (by omega) (by omega) (by omega)
  · exact insertCore_longkey qidx keyB val ⟨hw1, hw2, hw3, hw4⟩ hfit hng hp hbs16
  · exact insertCore_longval qidx keyB val ⟨hw1, hw2, hw3, hw4⟩ hfit hng hp hbs16
  · exact (insertCore_flags bs st qidx keyB val).1
  · exact (insertCore_flags bs st qidx keyB val).2

/-- A fixed-kv root-and-leaf node holding one record whose toc slot is
`(k_off = 0, v_off = 0xFFFF)` at slot 0, with a 16-byte key region. -/
def c3cexSt : NodeState :=
  ⟨⟨1, 88, 104, 4056, true⟩, w16 (w16 zBlock 56 0) 58 65535, false, false⟩

/-- The state after inserting a second record with query index 0. -/
def c3cexOut : NodeState := insertCore 4096 c3cexSt 0 (List.replicate 16 7) none

/-- C3 counterexample: the claim says the new record is placed
immediately BEFORE the slot returned by the query (here slot 0), which
would put the new slot (key offset 16) at position 0 and shift the old
slot (key offset 0) to position 1.  The code does the opposite: the old
slot stays at position 0 and the new record lands at position 1,
immediately AFTER the returned slot. -/
theorem c3_insert_after_not_before_cex :
    apfs_btree_insert 4096 c3cexSt 0 (List.replicate 16 7) none = .ok c3cexOut 1 ∧
    r16 c3cexOut.raw 56 = 0 ∧ r16 c3cexOut.raw 60 = 16 ∧
    ¬ (r16 c3cexOut.raw 56 = 16 ∧ r16 c3cexOut.raw 60 = 0) := by
  refine ⟨rfl, by decide, by decide, ?_⟩
  intro hh
  have h1 : r16 c3cexOut.raw 56 = 0 := by decide
  rw [hh.1] at h1
  cases h1

theorem c3_witness :
    ∃ st2, apfs_btree_insert 4096 c3cexSt 0 (List.replicate 16 7) none =
        .ok st2 (0 + 1) ∧ st2.mem.records = c3cexSt.mem.records + 1 :=
  match c3_insert_places_record 4096 c3cexSt 0 (List.replicate 16 7) none
    ⟨by decide, by decide, by decide, by decide⟩ (by decide) (by decide) (by decide)
    (by decide) (by decide) with
  | ⟨st2, h1, h2, _⟩ => ⟨st2, h1, h2⟩

/-! ## The C7 claim -/

/-- C7: `btree_remove` on the exact slot index held by the query shifts
the later table-of-contents entries one slot left, decrements `N` and
`bt_key_count` by one, adds `query.key_len` to the key free-list head's
length field and `query.len` to the value free-list head's length field,
and does not move or compact the key and value regions (all bytes from
the key base up to the tree-info trailer are untouched) or thread the
freed ranges into the free lists (the free-list offset fields are
untouched). -/
theorem c7_remove (bs : Nat) (st : NodeState) (qidx : Int) (qkl qvl : Nat)
    (hwf : NodeWF bs st) (hq0 : 0 ≤ qidx) (hqN : qidx < (st.mem.records : Int)) :
    (apfs_btree_remove bs st qidx qkl qvl).mem.records = st.mem.records - 1 ∧
    (apfs_btree_remove bs st qidx qkl qvl).mem.key = st.mem.key ∧
    (apfs_btree_remove bs st qidx qkl qvl).mem.free = st.mem.free ∧
    (apfs_btree_remove bs st qidx qkl qvl).mem.data = st.mem.data ∧
    r32 (apfs_btree_remove bs st qidx qkl qvl).raw 36 =
      (st.mem.records - 1) % 4294967296 ∧
    r64 (apfs_btree_remove bs st qidx qkl qvl).raw (bs - 16) =
      (((r64 st.raw (bs - 16) : Int) - 1) % 18446744073709551616).toNat ∧
    r16 (apfs_btree_remove bs st qidx qkl qvl).raw 50 =
      (r16 st.raw 50 + qkl) % 65536 ∧
    r16 (apfs_btree_remove bs st qidx qkl qvl).raw 54 =
      (r16 st.raw 54 + qvl) % 65536 ∧
    r16 (apfs_btree_remove bs st qidx qkl qvl).raw 48 = r16 st.raw 48 ∧
    r16 (apfs_btree_remove bs st qidx qkl qvl).raw 52 = r16 st.raw 52 ∧
    (∀ j, qidx.toNat ≤ j → j + 1 < st.mem.records → ∀ i,
      i < tocEntrySize st.mem.fixedKv →
      (apfs_btree_remove bs st qidx qkl qvl).raw
          (56 + tocEntrySize st.mem.fixedKv * j + i) =
        st.raw (56 + tocEntrySize st.mem.fixedKv * (j + 1) + i)) ∧
    (∀ j, j < qidx.toNat → ∀ i, i < tocEntrySize st.mem.fixedKv →
      (apfs_btree_remove bs st qidx qkl qvl).raw
          (56 + tocEntrySize st.mem.fixedKv * j + i) =
        st.raw (56 + tocEntrySize st.mem.fixedKv * j + i)) ∧
    (∀ i, st.mem.key ≤ i → i < bs - 40 →
      (apfs_btree_remove bs st qidx qkl qvl).raw i = st.raw i) ∧
    (apfs_btree_remove bs st qidx qkl qvl).dirty = true ∧
    (apfs_btree_remove bs st qidx qkl qvl).csum = true := by
  obtain ⟨hw1, hw2, hw3, hw4⟩ := hwf
  have hw1c : 56 + tocEntrySize st.mem.fixedKv * st.mem.records ≤ st.mem.key := by
    rwa [Nat.mul_comm] at hw1
  have hbs : 96 ≤ bs := by omega
  have htoc : 56 + tocEntrySize st.mem.fixedKv * st.mem.records ≤ bs - 16 := by omega
  refine ⟨rfl, rfl, rfl, rfl, remove_nkeys st qidx qkl qvl,
    remove_keycount st qidx qkl qvl hbs (by omega) htoc,
    remove_r16_50 st qidx qkl qvl hbs, remove_r16_54 st qidx qkl qvl hbs,
    remove_r16_48 st qidx qkl qvl hbs, remove_r16_52 st qidx qkl qvl hbs,
    ?_, ?_, ?_, rfl, rfl⟩
  · intro j hj1 hj2 i hi
    exact remove_shifted hj1 hj2 hi htoc
  · intro j hj i hi
    have hm1 : tocEntrySize st.mem.fixedKv * j + tocEntrySize st.mem.fixedKv ≤
        tocEntrySize st.mem.fixedKv * qidx.toNat := by
      calc tocEntrySize st.mem.fixedKv * j + tocEntrySize st.mem.fixedKv
          = tocEntrySize st.mem.fixedKv * (j + 1) := by ring
        _ ≤ tocEntrySize st.mem.fixedKv * qidx.toNat := Nat.mul_le_mul_left _ (by omega)
    have hm2 : tocEntrySize st.mem.fixedKv * qidx.toNat ≤
        tocEntrySize st.mem.fixedKv * st.mem.records :=
      Nat.mul_le_mul_left _ (by omega)
    exact remove_raw_other (Or.inl (by omega)) (by omega) (by omega) (by omega)
      (by omega) hbs
  · intro i hi1 hi2
    have hsum : tocEntrySize st.mem.fixedKv * qidx.toNat +
        tocEntrySize st.mem.fixedKv * (st.mem.records - qidx.toNat - 1) =
        tocEntrySize st.mem.fixedKv * (st.mem.records - 1) := by
      rw [← Nat.mul_add]
      congr 1
      omega
    have hm2 : tocEntrySize st.mem.fixedKv * (st.mem.records - 1) ≤
        tocEntrySize st.mem.fixedKv * st.mem.records :=
      Nat.mul_le_mul_left _ (by omega)
    exact remove_raw_other (Or.inr (by omega)) (by omega) (by omega) (by omega)
      (by omega) hbs

theorem c7_witness :
    (apfs_btree_remove 4096 c3cexSt 0 5 6).mem.records = c3cexSt.mem.records - 1 :=
  (c7_remove 4096 c3cexSt 0 5 6 ⟨by decide, by decide, by decide, by decide⟩
    (by decide) (by decide)).1

/-! ## A lemma unifying the two successful insert paths -/

theorem insertPrep {bs : Nat} {st : NodeState} (qidx : Int) (keyB : List Nat)
    (val : Option (List Nat)) (hwf : NodeWF bs st)
    (hfit : st.mem.free + keyB.length + (val.getD []).length ≤ st.mem.data)
    (hgfit : 56 + (st.mem.records + 1) * tocEntrySize st.mem.fixedKv > st.mem.key →
      st.mem.free + 8 * tocEntrySize st.mem.fixedKv + keyB.length +
        (val.getD []).length ≤ st.mem.data) :
    ∃ bst, apfs_btree_insert bs st qidx keyB val =
        .ok (insertCore bs bst qidx keyB val) (qidx + 1) ∧
      NodeWF bs bst ∧
      56 + (bst.mem.records + 1) * tocEntrySize bst.mem.fixedKv ≤ bst.mem.key ∧
      bst.mem.free + keyB.length + (val.getD []).length ≤ bst.mem.data ∧
      bst.mem.records = st.mem.records ∧
      bst.mem.fixedKv = st.mem.fixedKv ∧
      st.mem.key ≤ bst.mem.key ∧
      (∀ i, i < st.mem.key → (i < 42 ∨ 48 ≤ i) → bst.raw i = st.raw i) ∧
      (∀ i, bs - 40 ≤ i → bst.raw i = st.raw i) := by
  obtain ⟨hw1, hw2, hw3, hw4⟩ := hwf
  by_cases hgrow : 56 + (st.mem.records + 1) * tocEntrySize st.mem.fixedKv > st.mem.key
  · have hg2 := hgfit hgrow
    refine ⟨growToc st (tocEntrySize st.mem.fixedKv), ?_, ?_, ?_, ?_, ?_, ?_, ?_, ?_, ?_⟩
    · simp only [apfs_btree_insert]
      rw [if_neg (by omega), if_pos hgrow, if_neg (by omega)]
    · refine ⟨?_, ?_, ?_, ?_⟩ <;> simp only [growToc_mem] <;> omega
    · simp only [growToc_mem]
      have he : (st.mem.records + 1) * tocEntrySize st.mem.fixedKv =
          st.mem.records * tocEntrySize st.mem.fixedKv +
            tocEntrySize st.mem.fixedKv := by ring
      omega
    · simp only [growToc_mem]
      omega
    · simp only [growToc_mem]
    · simp only [growToc_mem]
    · simp only [growToc_mem]
      omega
    · intro i hi1 hi2
      exact growToc_raw_other hw2 (by omega) (by omega)
    · intro i hi
      exact growToc_raw_other hw2 (by omega) (by omega)
  · refine ⟨st, ?_, ⟨hw1, hw2, hw3, hw4⟩, by omega, hfit, rfl, rfl, le_refl _,
      fun i hi1 hi2 => rfl, fun i hi => rfl⟩
    simp only [apfs_btree_insert]
    rw [if_neg (by omega), if_neg (by omega)]

/-- Eight bytes below 256 read back as a value below 2^64. -/
theorem r64_lt {b : Block} (o : Nat) (hb : ∀ i, b i < 256) :
    r64 b o < 18446744073709551616 := by
  unfold r64 r32 r16
  have h0 := hb o
  have h1 := hb (o + 1)
  have h2 := hb (o + 2)
  have h3 := hb (o + 2 + 1)
  have h4 := hb (o + 4)
  have h5 := hb (o + 4 + 1)
  have h6 := hb (o + 4 + 2)
  have h7 := hb (o + 4 + 2 + 1)
  omega

/-! ## The C6 claim -/

/-- C6: for every root-and-leaf node, inserting a record `(k, v)` with
`btree_insert` and then removing the resulting slot with `btree_remove`
restores `N`, `bt_key_count`, and the table-of-contents byte range
(every byte of the `N` original slots) exactly to their pre-insert
values; value-region bytes written for that record may remain as
garbage but are excluded by the restored table of contents. -/
theorem c6_insert_remove_inverse (bs : Nat) (st : NodeState) (qidx : Int)
    (keyB : List Nat) (val : Option (List Nat))
    (hwf : NodeWF bs st) (hbytes : ∀ i, st.raw i < 256)
    (hfit : st.mem.free + keyB.length + (val.getD []).length ≤ st.mem.data)
    (hgfit : 56 + (st.mem.records + 1) * tocEntrySize st.mem.fixedKv > st.mem.key →
      st.mem.free + 8 * tocEntrySize st.mem.fixedKv + keyB.length +
        (val.getD []).length ≤ st.mem.data)
    (hq0 : 0 ≤ qidx + 1) (hqN : qidx + 1 ≤ (st.mem.records : Int)) :
    ∃ st2, apfs_btree_insert bs st qidx keyB val = .ok st2 (qidx + 1) ∧
      (apfs_btree_remove bs st2 (qidx + 1) keyB.length
          (val.getD []).length).mem.records = st.mem.records ∧
      r64 (apfs_btree_remove bs st2 (qidx + 1) keyB.length
          (val.getD []).length).raw (bs - 16) = r64 st.raw (bs - 16) ∧
      r32 (apfs_btree_remove bs st2 (qidx + 1) keyB.length
          (val.getD []).length).raw 36 = st.mem.records % 4294967296 ∧
      (∀ j, j < st.mem.records → ∀ o, o < tocEntrySize st.mem.fixedKv →
        (apfs_btree_remove bs st2 (qidx + 1) keyB.length
            (val.getD []).length).raw (56 + tocEntrySize st.mem.fixedKv * j + o) =
          st.raw (56 + tocEntrySize st.mem.fixedKv * j + o)) := by
  obtain ⟨bst, hins, bwf, bng, bfit, brec, bfx, bkey, blow, bhigh⟩ :=
    insertPrep qidx keyB val hwf hfit hgfit
  obtain ⟨hw1, hw2, hw3, hw4⟩ := hwf
  obtain ⟨bw1, bw2, bw3, bw4⟩ := bwf
  have hw1c : 56 + tocEntrySize st.mem.fixedKv * st.mem.records ≤ st.mem.key := by
    rwa [Nat.mul_comm] at hw1
  have hbs96 : 96 ≤ bs := by omega
  have hp : (qidx + 1).toNat ≤ st.mem.records := by omega
  have hpb : (qidx + 1).toNat ≤ bst.mem.records := by omega
  have htesb : tocEntrySize bst.mem.fixedKv = tocEntrySize st.mem.fixedKv := by rw [bfx]
  have hfx2 : (insertCore bs bst qidx keyB val).mem.fixedKv = st.mem.fixedKv := by
    simp only [insertCore_mem]
    exact bfx
  have hrec2 : (insertCore bs bst qidx keyB val).mem.records = st.mem.records + 1 := by
    simp only [insertCore_mem]
    rw [brec]
  have htes2 : tocEntrySize (insertCore bs bst qidx keyB val).mem.fixedKv =
      tocEntrySize st.mem.fixedKv := by rw [hfx2]
  have hbngc : 56 + tocEntrySize st.mem.fixedKv * (st.mem.records + 1) ≤ bst.mem.key := by
    rw [Nat.mul_comm]
    rw [brec, htesb] at bng
    exact bng
  have htocX : 56 + tocEntrySize (insertCore bs bst qidx keyB val).mem.fixedKv *
      (insertCore bs bst qidx keyB val).mem.records ≤ bs - 16 := by
    rw [htes2, hrec2]
    omega
  refine ⟨insertCore bs bst qidx keyB val, hins, ?_, ?_, ?_, ?_⟩
  · rw [remove_mem]
    simp only [insertCore_mem]
    rw [brec]
    omega
  · have h1 := remove_keycount (insertCore bs bst qidx keyB val) (qidx + 1)
      keyB.length (val.getD []).length hbs96 (by omega) htocX
    have h2 := insertCore_keycount qidx keyB val ⟨bw1, bw2, bw3, bw4⟩ bfit bng hpb
    have h3 : r64 bst.raw (bs - 16) = r64 st.raw (bs - 16) :=
      r64_ext st.raw (fun k hk1 hk2 => bhigh k (by omega))
    have h4 : r64 st.raw (bs - 16) < 18446744073709551616 := r64_lt _ hbytes
    rw [h1, h2, h3]
    omega
  · rw [remove_nkeys]
    rw [hrec2]
    simp
  · intro j hj o ho
    have hoX : o < tocEntrySize (insertCore bs bst qidx keyB val).mem.fixedKv := by
      rw [htes2]
      exact ho
    have hob : o < tocEntrySize bst.mem.fixedKv := by
      rw [htesb]
      exact ho
    have hmul1 : tocEntrySize st.mem.fixedKv * j + tocEntrySize st.mem.fixedKv ≤
        tocEntrySize st.mem.fixedKv * st.mem.records := by
      calc tocEntrySize st.mem.fixedKv * j + tocEntrySize st.mem.fixedKv
          = tocEntrySize st.mem.fixedKv * (j + 1) := by ring
        _ ≤ tocEntrySize st.mem.fixedKv * st.mem.records :=
            Nat.mul_le_mul_left _ (by omega)
    by_cases hjp : (qidx + 1).toNat ≤ j
    · have e1 : (apfs_btree_remove bs (insertCore bs bst qidx keyB val) (qidx + 1)
          keyB.length (val.getD []).length).raw
            (56 + tocEntrySize st.mem.fixedKv * j + o) =
          (insertCore bs bst qidx keyB val).raw
            (56 + tocEntrySize st.mem.fixedKv * (j + 1) + o) := by
        have h := @remove_shifted bs (insertCore bs bst qidx keyB val) (qidx + 1)
          keyB.length ((val.getD []).length) j o hjp (by rw [hrec2]; omega) hoX htocX
        rwa [htes2] at h
      have e2 : (insertCore bs bst qidx keyB val).raw
            (56 + tocEntrySize st.mem.fixedKv * (j + 1) + o) =
          bst.raw (56 + tocEntrySize st.mem.fixedKv * j + o) := by
        have h := @insertCore_shifted bs bst qidx keyB val j o ⟨bw1, bw2, bw3, bw4⟩
          bfit bng hjp (by rw [brec]; exact hj) hob
        rwa [htesb] at h
      have e3 : bst.raw (56 + tocEntrySize st.mem.fixedKv * j + o) =
          st.raw (56 + tocEntrySize st.mem.fixedKv * j + o) :=
        blow _ (by omega) (by omega)
      exact e1.trans (e2.trans e3)
    · have hmul2 : tocEntrySize st.mem.fixedKv * j + tocEntrySize st.mem.fixedKv ≤
          tocEntrySize st.mem.fixedKv * (qidx + 1).toNat := by
        calc tocEntrySize st.mem.fixedKv * j + tocEntrySize st.mem.fixedKv
            = tocEntrySize st.mem.fixedKv * (j + 1) := by ring
          _ ≤ tocEntrySize st.mem.fixedKv * (qidx + 1).toNat :=
              Nat.mul_le_mul_left _ (by omega)
      have hmul3 : tocEntrySize st.mem.fixedKv * (qidx + 1).toNat ≤
          tocEntrySize st.mem.fixedKv * st.mem.records :=
        Nat.mul_le_mul_left _ hp
      have e1 : (apfs_btree_remove bs (insertCore bs bst qidx keyB val) (qidx + 1)
          keyB.length (val.getD []).length).raw
            (56 + tocEntrySize st.mem.fixedKv * j + o) =
          (insertCore bs bst qidx keyB val).raw
            (56 + tocEntrySize st.mem.fixedKv * j + o) :=
        @remove_raw_other bs (insertCore bs bst qidx keyB val) (qidx + 1)
          keyB.length ((val.getD []).length)
          (56 + tocEntrySize st.mem.fixedKv * j + o)
          (Or.inl (by rw [htes2]; omega)) (by omega) (by omega) (by omega) (by omega)
          hbs96
      have e2 : (insertCore bs bst qidx keyB val).raw
            (56 + tocEntrySize st.mem.fixedKv * j + o) =
          bst.raw (56 + tocEntrySize st.mem.fixedKv * j + o) :=
        @insertCore_raw_other bs bst qidx keyB val
          (56 + tocEntrySize st.mem.fixedKv * j + o) hpb (by omega) (by omega)
          (Or.inl (by rw [htesb]; omega)) (by omega) (by omega)
          (Or.inl (by omega)) (Or.inl (by omega)) (Or.inl (by omega))
      have e3 : bst.raw (56 + tocEntrySize st.mem.fixedKv * j + o) =
          st.raw (56 + tocEntrySize st.mem.fixedKv * j + o) :=
        blow _ (by omega) (by omega)
      exact e1.trans (e2.trans e3)

theorem w8_lt (b : Block) (o v : Nat) (hb : ∀ i, b i < 256) : ∀ i, w8 b o v i < 256 := by
  intro i
  unfold w8
  split
  · exact Nat.mod_lt _ (by omega)
  · exact hb i

theorem w16_lt (b : Block) (o v : Nat) (hb : ∀ i, b i < 256) : ∀ i, w16 b o v i < 256 :=
  w8_lt _ _ _ (w8_lt _ _ _ hb)

theorem zBlock_lt : ∀ i, zBlock i < 256 := by
  intro i
  unfold zBlock
  omega

theorem c3cexSt_bytes : ∀ i, c3cexSt.raw i < 256 :=
  w16_lt _ _ _ (w16_lt _ _ _ zBlock_lt)

theorem c6_witness :
    ∃ st2, apfs_btree_insert 4096 c3cexSt 0 (List.replicate 16 7) none =
        .ok st2 (0 + 1) ∧
      (apfs_btree_remove 4096 st2 (0 + 1) (List.replicate 16 7).length
          ((none : Option (List Nat)).getD []).length).mem.records =
        c3cexSt.mem.records :=
  match c6_insert_remove_inverse 4096 c3cexSt 0 (List.replicate 16 7) none
    ⟨by decide, by decide, by decide, by decide⟩ c3cexSt_bytes (by decide)
    (fun h => absurd h (by decide)) (by decide) (by decide) with
  | ⟨st2, h1, h2, _⟩ => ⟨st2, h1, h2⟩

/-! ## The C5 claim -/

/-- A 16-byte fixed-size key holding the record number, as in a
free-queue tree. -/
def s3key (n : Nat) : List Nat := le64bytes n ++ le64bytes 0

/-- Scenario S3 start: an empty 4 KiB fixed-kv root-and-leaf node whose
table of contents holds 8 four-byte slots (`key base = 56 + 32 = 88`),
with the recorded toc-span and free-span lengths set accordingly.
Modelled from the spec: the node-creation code is not among the sources;
S3 fixes the initial toc capacity at 8 entries, since the ninth insert
must trigger the extension. -/
def s3init : NodeState :=
  ⟨⟨0, 88, 88, 4056, true⟩, w16 (w16 zBlock 42 32) 46 3968, false, false⟩

/-- One step of scenario S3: insert a ghost record at the end of the
node (the query for a new greatest key returns the last record, index
`records - 1`). -/
def s3step (s : NodeState) (n : Nat) : NodeState :=
  match apfs_btree_insert 4096 s ((s.mem.records : Int) - 1) (s3key n) none with
  | .ok st2 _ => st2
  | .noSpace st2 => st2

/-- The node after the first `n` inserts of scenario S3. -/
def s3after : Nat → NodeState
  | 0 => s3init
  | n + 1 => s3step (s3after n) n

set_option maxRecDepth 40000 in
/-- C5 (amended): when `btree_insert` finds
`header_size + (N+1) * slot_size > key_base` it extends the table of
contents by `INC = 8 * slot_size` bytes before inserting — the key
region bytes move up by `INC`, `key_base` rises by `INC` (and `free` by
`INC` plus the appended `key_len`), the recorded toc-span length grows
by `INC` and the recorded free-span length shrinks by `INC` (and
further by the record's own `key_len + val_len`).  An insert whose slot
fits the existing table of contents leaves `key_base` and the recorded
toc-span length untouched; `free` still advances by `key_len` and the
free span still shrinks by the record's bytes (the claim's statement
that these too are untouched is refuted by the counterexample).  In
particular, in a 4 KiB fixed-kv node with slot size 4, the ninth insert
triggers a 32-byte extension and ends with `bt_key_count = 9`. -/
theorem c5_toc_growth :
    (∀ bs st qidx keyB (val : Option (List Nat)), NodeWF bs st → bs ≤ 65536 →
      st.mem.free + keyB.length + (val.getD []).length ≤ st.mem.data →
      56 + (st.mem.records + 1) * tocEntrySize st.mem.fixedKv > st.mem.key →
      st.mem.free + 8 * tocEntrySize st.mem.fixedKv + keyB.length +
        (val.getD []).length ≤ st.mem.data →
      0 ≤ qidx + 1 → qidx + 1 ≤ (st.mem.records : Int) →
      ∃ st2, apfs_btree_insert bs st qidx keyB val = .ok st2 (qidx + 1) ∧
        st2.mem.key = st.mem.key + 8 * tocEntrySize st.mem.fixedKv ∧
        st2.mem.free = st.mem.free + 8 * tocEntrySize st.mem.fixedKv + keyB.length ∧
        r16 st2.raw 42 = (r16 st.raw 42 + 8 * tocEntrySize st.mem.fixedKv) % 65536 ∧
        r16 st2.raw 46 = (((r16 st.raw 46 : Int) - 8 * tocEntrySize st.mem.fixedKv -
          keyB.length - (val.getD []).length) % 65536).toNat ∧
        (∀ i, i < st.mem.free - st.mem.key →
          st2.raw (st.mem.key + 8 * tocEntrySize st.mem.fixedKv + i) =
            st.raw (st.mem.key + i))) ∧
    (∀ bs st qidx keyB (val : Option (List Nat)), NodeWF bs st → bs ≤ 65536 →
      st.mem.free + keyB.length + (val.getD []).length ≤ st.mem.data →
      56 + (st.mem.records + 1) * tocEntrySize st.mem.fixedKv ≤ st.mem.key →
      0 ≤ qidx + 1 → qidx + 1 ≤ (st.mem.records : Int) →
      ∃ st2, apfs_btree_insert bs st qidx keyB val = .ok st2 (qidx + 1) ∧
        st2.mem.key = st.mem.key ∧
        r16 st2.raw 42 = r16 st.raw 42 ∧
        st2.mem.free = st.mem.free + keyB.length ∧
        r16 st2.raw 46 = (((r16 st.raw 46 : Int) - keyB.length -
          (val.getD []).length) % 65536).toNat) ∧
    ((s3after 8).mem.key = 88 ∧
      apfs_btree_insert 4096 (s3after 8) 7 (s3key 8) none = .ok (s3after 9) 8 ∧
      (s3after 9).mem.key = (s3after 8).mem.key + 32 ∧
      r16 (s3after 9).raw 42 = r16 (s3after 8).raw 42 + 32 ∧
      (s3after 9).mem.records = 9 ∧
      r64 (s3after 9).raw (4096 - 16) = 9) := by
  refine ⟨?_, ?_, ?_⟩
  · intro bs st qidx keyB val hwf hbs16 hfit hgrow hgfit2 hq0 hqN
    obtain ⟨hw1, hw2, hw3, hw4⟩ := hwf
    have hmulN : (st.mem.records + 1) * tocEntrySize st.mem.fixedKv =
        st.mem.records * tocEntrySize st.mem.fixedKv + tocEntrySize st.mem.fixedKv := by
      ring
    have hgwf : NodeWF bs (growToc st (tocEntrySize st.mem.fixedKv)) := by
      refine ⟨?_, ?_, ?_, ?_⟩ <;> simp only [growToc_mem] <;> omega
    have hgng : 56 + ((growToc st (tocEntrySize st.mem.fixedKv)).mem.records + 1) *
        tocEntrySize (growToc st (tocEntrySize st.mem.fixedKv)).mem.fixedKv ≤
        (growToc st (tocEntrySize st.mem.fixedKv)).mem.key := by
      simp only [growToc_mem]
      omega
    have hgfit : (growToc st (tocEntrySize st.mem.fixedKv)).mem.free + keyB.length +
        (val.getD []).length ≤ (growToc st (tocEntrySize st.mem.fixedKv)).mem.data := by
      simp only [growToc_mem]
      omega
    have hgp : (qidx + 1).toNat ≤ (growToc st (tocEntrySize st.mem.fixedKv)).mem.records := by
      simp only [growToc_mem]
      omega
    have hins : apfs_btree_insert bs st qidx keyB val =
        .ok (insertCore bs (growToc st (tocEntrySize st.mem.fixedKv)) qidx keyB val)
          (qidx + 1) := by
      simp only [apfs_btree_insert]
      rw [if_neg (by omega), if_pos hgrow, if_neg (by omega)]
    refine ⟨insertCore bs (growToc st (tocEntrySize st.mem.fixedKv)) qidx keyB val,
      hins, ?_, ?_, ?_, ?_, ?_⟩
    · simp only [insertCore_mem, growToc_mem]
    · simp only [insertCore_mem, growToc_mem]
    · rw [insertCore_r16_42 qidx keyB val hgwf hgfit hgp, growToc_r16_42 (by omega)]
    · rw [insertCore_r16_46 qidx keyB val hgwf hgfit hgp, growToc_r16_46 (by omega)]
      omega
    · intro i hi
      have e1 : (insertCore bs (growToc st (tocEntrySize st.mem.fixedKv)) qidx keyB
          val).raw (st.mem.key + 8 * tocEntrySize st.mem.fixedKv + i) =
          (growToc st (tocEntrySize st.mem.fixedKv)).raw
            (st.mem.key + 8 * tocEntrySize st.mem.fixedKv + i) :=
        @insertCore_raw_other bs (growToc st (tocEntrySize st.mem.fixedKv))
          qidx keyB val (st.mem.key + 8 * tocEntrySize st.mem.fixedKv + i) hgp
          (by omega)
          (by simp only [growToc_mem]; omega)
          (by simp only [growToc_mem]
              refine Or.inr ?_
              have hcom : tocEntrySize st.mem.fixedKv * (st.mem.records + 1) =
                  st.mem.records * tocEntrySize st.mem.fixedKv +
                    tocEntrySize st.mem.fixedKv := by ring
              omega)
          (by omega) (by omega)
          (by simp only [growToc_mem]; omega)
          (by simp only [growToc_mem]; omega)
          (by omega)
      rw [e1, growToc_moved hi (by omega)]
  · intro bs st qidx keyB val hwf hbs16 hfit hng hq0 hqN
    obtain ⟨hw1, hw2, hw3, hw4⟩ := hwf
    have hp : (qidx + 1).toNat ≤ st.mem.records := by omega
    have hins : apfs_btree_insert bs st qidx keyB val =
        .ok (insertCore bs st qidx keyB val) (qidx + 1) := by
      simp only [apfs_btree_insert]
      rw [if_neg (by omega), if_neg (by omega)]
    refine ⟨insertCore bs st qidx keyB val, hins, ?_, ?_, ?_, ?_⟩
    · simp only [insertCore_mem]
    · exact insertCore_r16_42 qidx keyB val ⟨hw1, hw2, hw3, hw4⟩ hfit hp
    · simp only [insertCore_mem]
    · exact insertCore_r16_46 qidx keyB val ⟨hw1, hw2, hw3, hw4⟩ hfit hp
  · exact ⟨by decide, rfl, by decide, by decide, by decide, by decide⟩

/-- C5 counterexample: an insert whose slot fits the existing table of
contents (no extension required) does NOT leave the `free` base
untouched — it advances by `key_len` (here from 104 to 120). -/
theorem c5_free_advances_cex :
    apfs_btree_insert 4096 c3cexSt 0 (List.replicate 16 7) none = .ok c3cexOut 1 ∧
    56 + (c3cexSt.mem.records + 1) * tocEntrySize c3cexSt.mem.fixedKv ≤
      c3cexSt.mem.key ∧
    c3cexOut.mem.free = 120 ∧ c3cexSt.mem.free = 104 ∧
    ¬ c3cexOut.mem.free = c3cexSt.mem.free :=
  ⟨rfl, by decide, by decide, by decide, by decide⟩

/-- A fixed-kv node whose toc is full (8 slots used, key base 88), so
that the next insert triggers the extension. -/
def c5wSt : NodeState := ⟨⟨8, 88, 216, 4056, true⟩, zBlock, false, false⟩

theorem c5_witness :
    ∃ st2, apfs_btree_insert 4096 c5wSt 7 (List.replicate 16 3) none =
        .ok st2 (7 + 1) ∧
      st2.mem.key = c5wSt.mem.key + 8 * tocEntrySize c5wSt.mem.fixedKv :=
  match c5_toc_growth.1 4096 c5wSt 7 (List.replicate 16 3) none
    ⟨by decide, by decide, by decide, by decide⟩ (by decide) (by decide) (by decide)
    (by decide) (by decide) (by decide) with
  | ⟨st2, h1, h2, _⟩ => ⟨st2, h1, h2⟩

/-! ## Step equations of the descent loop -/

theorem goFuel_backtrack_root {ctx : QCtx} {f : Nat} {cur : Cursor}
    (hd : ¬ 12 ≤ cur.depth)
    (hnq : apfs_node_query ctx.cmp cur.node.recs cur.index ctx.target = none) :
    goFuel ctx (f + 1) cur [] = some ⟨.error .nodata, 0, 0⟩ := by
  simp [goFuel, hd, hnq]

theorem goFuel_backtrack_pop {ctx : QCtx} {f : Nat} {cur p : Cursor}
    {rest : List Cursor} (hd : ¬ 12 ≤ cur.depth)
    (hnq : apfs_node_query ctx.cmp cur.node.recs cur.index ctx.target = none) :
    goFuel ctx (f + 1) cur (p :: rest) = (goFuel ctx f p rest).map QOut.addAsc := by
  simp [goFuel, hd, hnq]

theorem goFuel_leaf {ctx : QCtx} {f : Nat} {cur : Cursor} {parents : List Cursor}
    {j : Nat} (hd : ¬ 12 ≤ cur.depth)
    (hnq : apfs_node_query ctx.cmp cur.node.recs cur.index ctx.target = some j)
    (hleaf : cur.node.leaf = true) :
    goFuel ctx (f + 1) cur parents = some ⟨.ok (cur.node, j), 0, 0⟩ := by
  simp [goFuel, hd, hnq, hleaf]

theorem goFuel_badchild {ctx : QCtx} {f : Nat} {cur : Cursor} {parents : List Cursor}
    {j : Nat} (hd : ¬ 12 ≤ cur.depth)
    (hnq : apfs_node_query ctx.cmp cur.node.recs cur.index ctx.target = some j)
    (hleaf : cur.node.leaf = false)
    (hlen : (cur.node.recs.getD j defNRec).val.length ≠ 8) :
    goFuel ctx (f + 1) cur parents = some ⟨.error (.badChild cur.blk), 0, 0⟩ := by
  have hc : apfs_child_from_query (listBlock (cur.node.recs.getD j defNRec).val) 0
      (cur.node.recs.getD j defNRec).val.length = .error () := by
    unfold apfs_child_from_query
    rw [if_pos hlen]
  simp only [goFuel, if_neg hd, hnq, hleaf, hc, Bool.false_eq_true, if_false,
    ite_false, ite_true]

theorem goFuel_descend {ctx : QCtx} {f : Nat} {cur : Cursor} {parents : List Cursor}
    {j : Nat} (hd : ¬ 12 ≤ cur.depth)
    (hnq : apfs_node_query ctx.cmp cur.node.recs cur.index ctx.target = some j)
    (hleaf : cur.node.leaf = false)
    (hlen : (cur.node.recs.getD j defNRec).val.length = 8) :
    goFuel ctx (f + 1) cur parents = afterChild ctx f { cur with index := j } parents
      (r64 (listBlock (cur.node.recs.getD j defNRec).val) 0) := by
  have hc : apfs_child_from_query (listBlock (cur.node.recs.getD j defNRec).val) 0
      (cur.node.recs.getD j defNRec).val.length =
        .ok (r64 (listBlock (cur.node.recs.getD j defNRec).val) 0) := by
    unfold apfs_child_from_query
    rw [if_neg (not_not_intro hlen)]
  simp only [goFuel, afterChild, if_neg hd, hnq, hleaf, hc, Bool.false_eq_true,
    if_false, ite_false, ite_true]

/-! ## The C1 and C9 claims -/

/-- C1: during `btree_query` descent, whenever the node query signals
backtrack (`-EAGAIN`): if the current query is the root of the chain
(no parent, which is the query seeded at the tree root), the query
fails with not-found (`-ENODATA`); otherwise the engine replaces the
current query with its parent query — passed on completely unchanged,
so its index still points to the slot just traversed — and continues
the search from there; and backtracking past the root is reported as
`-ENODATA`, never as a corruption error. -/
theorem c1_btree_query_backtrack (ctx : QCtx) (f : Nat) (cur : Cursor)
    (parents : List Cursor) (hd : ¬ 12 ≤ cur.depth)
    (hnq : apfs_node_query ctx.cmp cur.node.recs cur.index ctx.target = none) :
    (parents = [] →
      goFuel ctx (f + 1) cur parents = some ⟨.error .nodata, 0, 0⟩ ∧
      QErr.isCorruption .nodata = false) ∧
    (∀ p rest, parents = p :: rest →
      goFuel ctx (f + 1) cur parents = (goFuel ctx f p rest).map QOut.addAsc) := by
  constructor
  · intro hpar
    subst hpar
    exact ⟨goFuel_backtrack_root hd hnq, rfl⟩
  · intro p rest hpar
    subst hpar
    exact goFuel_backtrack_pop hd hnq

/-- An omap-mode, single-record context over an empty environment. -/
def c1ctx : QCtx := ⟨⟨[], []⟩, cmpOmap, true, false, ⟨5, 5, 0⟩⟩

/-- A root query over an empty leaf node. -/
def c1cur : Cursor := ⟨⟨[], true⟩, 1, 0, 0⟩

theorem c1_witness :
    goFuel c1ctx (10 + 1) c1cur [] = some ⟨.error .nodata, 0, 0⟩ ∧
      QErr.isCorruption .nodata = false :=
  (c1_btree_query_backtrack c1ctx 10 c1cur [] (by decide) (by decide)).1 rfl

/-- C9: when `btree_query` positions on a record of a non-leaf node, if
that record's value length is not exactly 8 bytes the query fails with
the corruption error carrying the offending block number (which
`apfs_alert` logs); when it is 8 bytes, `apfs_child_from_query` reads
those bytes as the little-endian 64-bit child id and the descent
continues with that id. -/
theorem c9_child_id (ctx : QCtx) (f : Nat) (cur : Cursor) (parents : List Cursor)
    (j : Nat) (hd : ¬ 12 ≤ cur.depth)
    (hnq : apfs_node_query ctx.cmp cur.node.recs cur.index ctx.target = some j)
    (hleaf : cur.node.leaf = false) :
    ((cur.node.recs.getD j defNRec).val.length ≠ 8 →
      goFuel ctx (f + 1) cur parents = some ⟨.error (.badChild cur.blk), 0, 0⟩ ∧
      QErr.isCorruption (.badChild cur.blk) = true) ∧
    ((cur.node.recs.getD j defNRec).val.length = 8 →
      apfs_child_from_query (listBlock (cur.node.recs.getD j defNRec).val) 0
          (cur.node.recs.getD j defNRec).val.length =
        .ok (r64 (listBlock (cur.node.recs.getD j defNRec).val) 0) ∧
      goFuel ctx (f + 1) cur parents = afterChild ctx f { cur with index := j }
        parents (r64 (listBlock (cur.node.recs.getD j defNRec).val) 0)) := by
  constructor
  · intro hlen
    exact ⟨goFuel_badchild hd hnq hleaf hlen, rfl⟩
  · intro hlen
    constructor
    · unfold apfs_child_from_query
      rw [if_neg (not_not_intro hlen)]
    · exact goFuel_descend hd hnq hleaf hlen

/-- A non-leaf root whose only record carries a 7-byte value. -/
def c9cur : Cursor := ⟨⟨[⟨⟨1, 0, 0⟩, [1, 2, 3, 4, 5, 6, 7]⟩], false⟩, 9, 1, 0⟩

theorem c9_witness :
    goFuel c1ctx (10 + 1) c9cur [] = some ⟨.error (.badChild c9cur.blk), 0, 0⟩ ∧
      QErr.isCorruption (.badChild c9cur.blk) = true :=
  (c9_child_id c1ctx 10 c9cur [] 0 (by decide) (by decide) (by decide)).1 (by decide)

/-! ## Termination infrastructure for the descent loop -/

theorem isSome_map_go (g : QOut → QOut) (o : Option QOut) :
    (o.map g).isSome = o.isSome := by
  cases o <;> rfl

theorem map_eq_some_go {o : Option QOut} {g : QOut → QOut} {b : QOut}
    (h : o.map g = some b) : ∃ a, o = some a ∧ g a = b := by
  cases o with
  | none => simp at h
  | some a => exact ⟨a, rfl, Option.some.inj h⟩

theorem chainMeasure_cons (bnd : Nat) (c : Cursor) (l : List Cursor) :
    chainMeasure bnd (c :: l) =
      (c.index + 1) * bnd ^ (12 - c.depth) + chainMeasure bnd l := by
  simp [chainMeasure]

theorem chainMeasure_cons2 (bnd : Nat) (node : NodeV) (blk idx dep : Nat)
    (l : List Cursor) :
    chainMeasure bnd ((⟨node, blk, idx, dep⟩ : Cursor) :: l) =
      (idx + 1) * bnd ^ (12 - dep) + chainMeasure bnd l := by
  simp [chainMeasure]

theorem nqScan_lt {cmp : MKey → MKey → Ordering} {rs : List NRec} {t : MKey} :
    ∀ {n j : Nat}, nqScan cmp rs t n = some j → j < n ∧ j < rs.length := by
  intro n
  induction n with
  | zero => intro j h; simp [nqScan] at h
  | succ m ih =>
    intro j h
    rw [nqScan] at h
    by_cases hc : m < rs.length ∧ cmp (rs.getD m defNRec).key t ≠ Ordering.gt
    · rw [if_pos hc] at h
      injection h with h2
      subst h2
      exact ⟨Nat.lt_succ_self m, hc.1⟩
    · rw [if_neg hc] at h
      have h3 := ih h
      exact ⟨Nat.lt_succ_of_lt h3.1, h3.2⟩

theorem nqScan_found {cmp : MKey → MKey → Ordering} {rs : List NRec} {t : MKey} :
    ∀ {n j : Nat}, nqScan cmp rs t n = some j →
      cmp (rs.getD j defNRec).key t ≠ Ordering.gt := by
  intro n
  induction n with
  | zero => intro j h; simp [nqScan] at h
  | succ m ih =>
    intro j h
    rw [nqScan] at h
    by_cases hc : m < rs.length ∧ cmp (rs.getD m defNRec).key t ≠ Ordering.gt
    · rw [if_pos hc] at h
      injection h with h2
      subst h2
      exact hc.2
    · rw [if_neg hc] at h
      exact ih h

theorem nqScan_above {cmp : MKey → MKey → Ordering} {rs : List NRec} {t : MKey} :
    ∀ {n j : Nat}, nqScan cmp rs t n = some j →
      ∀ k, j < k → k < n → k < rs.length →
        cmp (rs.getD k defNRec).key t = Ordering.gt := by
  intro n
  induction n with
  | zero => intro j h; simp [nqScan] at h
  | succ m ih =>
    intro j h k hjk hkn hkl
    rw [nqScan] at h
    by_cases hc : m < rs.length ∧ cmp (rs.getD m defNRec).key t ≠ Ordering.gt
    · rw [if_pos hc] at h
      injection h with h2
      subst h2
      exact absurd hjk (by omega)
    · rw [if_neg hc] at h
      by_cases hkm : k = m
      · subst hkm
        by_contra hg
        exact hc ⟨hkl, hg⟩
      · exact ih h k hjk (by omega) hkl

theorem nqScan_eq_some {cmp : MKey → MKey → Ordering} {rs : List NRec} {t : MKey}
    {j : Nat} :
    ∀ {n}, j < n → j < rs.length →
      cmp (rs.getD j defNRec).key t ≠ Ordering.gt →
      (∀ k, j < k → k < n → k < rs.length →
        cmp (rs.getD k defNRec).key t = Ordering.gt) →
      nqScan cmp rs t n = some j := by
  intro n
  induction n with
  | zero => intro h; exact absurd h (Nat.not_lt_zero _)
  | succ m ih =>
    intro hjn hjl hj habove
    rw [nqScan]
    by_cases hjm : j = m
    · subst hjm
      rw [if_pos ⟨hjl, hj⟩]
    · have hjm2 : j < m := by omega
      rw [if_neg (fun hc => absurd (habove m hjm2 (Nat.lt_succ_self m) hc.1) hc.2)]
      exact ih hjm2 hjl hj (fun k hk1 hk2 hk3 => habove k hk1 (by omega) hk3)

theorem boundOf_pos (e : Env) : 2 ≤ boundOf e := by
  unfold boundOf
  omega

theorem foldrMax_le {l : List (Nat × NodeV)} {pr : Nat × NodeV} (h : pr ∈ l) :
    pr.2.recs.length ≤ l.foldr (fun q m => max q.2.recs.length m) 0 := by
  induction l with
  | nil => cases h
  | cons a t ih =>
    rcases List.mem_cons.mp h with h1 | h2
    · subst h1
      exact le_max_left _ _
    · exact le_trans (ih h2) (le_max_right _ _)

theorem boundOf_bound {e : Env} {b : Nat} {n : NodeV} (h : envRead e b = some n) :
    n.recs.length + 2 ≤ boundOf e := by
  unfold envRead at h
  cases hf : e.tbl.find? (fun pr => pr.1 == b) with
  | none => rw [hf] at h; simp at h
  | some pr =>
    rw [hf] at h
    have h2 : pr.2 = n := Option.some.inj h
    subst h2
    have hm := List.mem_of_find?_eq_some hf
    have h3 := foldrMax_le hm
    unfold boundOf
    omega

theorem goFuel_depth {ctx : QCtx} {f : Nat} {cur : Cursor} {parents : List Cursor}
    (hd : 12 ≤ cur.depth) :
    goFuel ctx (f + 1) cur parents = some ⟨.error .depthLimit, 0, 0⟩ := by
  simp [goFuel, hd]

theorem goFuel_adequate (ctx : QCtx) :
    ∀ (f : Nat) (cur : Cursor) (parents : List Cursor),
      chainMeasure (boundOf ctx.env) (cur :: parents) < f →
      (goFuel ctx f cur parents).isSome = true := by
  intro f
  induction f with
  | zero =>
    intro cur parents h
    exact absurd h (Nat.not_lt_zero _)
  | succ f ih =>
    intro cur parents hm
    by_cases hd : 12 ≤ cur.depth
    · rw [goFuel_depth hd]
      rfl
    · cases hnq : apfs_node_query ctx.cmp cur.node.recs cur.index ctx.target with
      | none =>
        cases parents with
        | nil =>
          rw [goFuel_backtrack_root hd hnq]
          rfl
        | cons p rest =>
          rw [goFuel_backtrack_pop hd hnq, isSome_map_go]
          apply ih
          rw [chainMeasure_cons] at hm
          have hX1 : 1 ≤ boundOf ctx.env ^ (12 - cur.depth) :=
            Nat.one_le_pow _ _ (by have := boundOf_pos ctx.env; omega)
          have hpos : 1 ≤ (cur.index + 1) * boundOf ctx.env ^ (12 - cur.depth) :=
            le_trans hX1 (Nat.le_mul_of_pos_left _ (by omega))
          omega
      | some j =>
        have hnq2 : nqScan ctx.cmp cur.node.recs ctx.target cur.index = some j := hnq
        have hj : j < cur.index := (nqScan_lt hnq2).1
        cases hleaf : cur.node.leaf with
        | true =>
          rw [goFuel_leaf hd hnq hleaf]
          rfl
        | false =>
          by_cases hlen : (cur.node.recs.getD j defNRec).val.length = 8
          · rw [goFuel_descend hd hnq hleaf hlen]
            unfold afterChild
            split
            · rfl
            next cblk hres =>
              split
              · rfl
              next child heq =>
                rw [chainMeasure_cons] at hm
                have hB := boundOf_pos ctx.env
                have hLb : child.recs.length + 2 ≤ boundOf ctx.env :=
                  boundOf_bound heq
                have hk : 12 - cur.depth = (12 - (cur.depth + 1)) + 1 := by omega
                have hY : boundOf ctx.env ^ (12 - cur.depth) =
                    boundOf ctx.env ^ (12 - (cur.depth + 1)) * boundOf ctx.env := by
                  rw [hk, pow_succ]
                have hX1 : 1 ≤ boundOf ctx.env ^ (12 - (cur.depth + 1)) :=
                  Nat.one_le_pow _ _ (by omega)
                have e1 : (child.recs.length + 1) *
                      boundOf ctx.env ^ (12 - (cur.depth + 1)) +
                      boundOf ctx.env ^ (12 - (cur.depth + 1)) ≤
                    boundOf ctx.env ^ (12 - (cur.depth + 1)) * boundOf ctx.env := by
                  calc (child.recs.length + 1) *
                        boundOf ctx.env ^ (12 - (cur.depth + 1)) +
                        boundOf ctx.env ^ (12 - (cur.depth + 1))
                      = (child.recs.length + 2) *
                        boundOf ctx.env ^ (12 - (cur.depth + 1)) := by ring
                    _ ≤ boundOf ctx.env *
                        boundOf ctx.env ^ (12 - (cur.depth + 1)) :=
                        Nat.mul_le_mul_right _ hLb
                    _ = boundOf ctx.env ^ (12 - (cur.depth + 1)) *
                        boundOf ctx.env := Nat.mul_comm _ _
                have e2 : (j + 1) * boundOf ctx.env ^ (12 - cur.depth) ≤
                    cur.index * boundOf ctx.env ^ (12 - cur.depth) :=
                  Nat.mul_le_mul_right _ (by omega)
                have e3 : cur.index * boundOf ctx.env ^ (12 - cur.depth) +
                    boundOf ctx.env ^ (12 - cur.depth) =
                    (cur.index + 1) * boundOf ctx.env ^ (12 - cur.depth) := by
                  ring
                cases hmf : ctx.multF with
                | true =>
                  simp only [hmf, ite_true, isSome_map_go]
                  apply ih
                  show chainMeasure (boundOf ctx.env)
                      ((⟨child, cblk, child.recs.length, cur.depth + 1⟩ : Cursor) ::
                        (⟨cur.node, cur.blk, j, cur.depth⟩ : Cursor) :: parents) < f
                  rw [chainMeasure_cons2, chainMeasure_cons2]
                  omega
                | false =>
                  simp only [hmf, Bool.false_eq_true, if_false, ite_false,
                    isSome_map_go]
                  apply ih
                  show chainMeasure (boundOf ctx.env)
                      ((⟨child, cblk, child.recs.length, cur.depth + 1⟩ : Cursor) ::
                        parents) < f
                  rw [chainMeasure_cons2]
                  omega
          · rw [goFuel_badchild hd hnq hleaf hlen]
            rfl

theorem goFuel_single_bound {ctx : QCtx} (hmf : ctx.multF = false) :
    ∀ (f : Nat) (cur : Cursor) (out : QOut),
      goFuel ctx f cur [] = some out → cur.depth ≤ 12 →
      out.asc = 0 ∧ out.desc + cur.depth ≤ 12 := by
  intro f
  induction f with
  | zero =>
    intro cur out hg
    simp [goFuel] at hg
  | succ f ih =>
    intro cur out hg hdep
    by_cases hd : 12 ≤ cur.depth
    · rw [goFuel_depth hd] at hg
      have h2 := Option.some.inj hg
      subst h2
      exact ⟨rfl, by show 0 + cur.depth ≤ 12; omega⟩
    · cases hnq : apfs_node_query ctx.cmp cur.node.recs cur.index ctx.target with
      | none =>
        rw [goFuel_backtrack_root hd hnq] at hg
        have h2 := Option.some.inj hg
        subst h2
        exact ⟨rfl, by show 0 + cur.depth ≤ 12; omega⟩
      | some j =>
        cases hleaf : cur.node.leaf with
        | true =>
          rw [goFuel_leaf hd hnq hleaf] at hg
          have h2 := Option.some.inj hg
          subst h2
          exact ⟨rfl, by show 0 + cur.depth ≤ 12; omega⟩
        | false =>
          by_cases hlen : (cur.node.recs.getD j defNRec).val.length = 8
          · rw [goFuel_descend hd hnq hleaf hlen] at hg
            unfold afterChild at hg
            split at hg
            · have h2 := Option.some.inj hg
              subst h2
              exact ⟨rfl, by show 0 + cur.depth ≤ 12; omega⟩
            next cblk hres =>
              split at hg
              · have h2 := Option.some.inj hg
                subst h2
                exact ⟨rfl, by show 0 + cur.depth ≤ 12; omega⟩
              next child heq =>
                simp only [hmf, Bool.false_eq_true, if_false, ite_false] at hg
                obtain ⟨out2, hgo, hout⟩ := map_eq_some_go hg
                have hb := ih _ out2 hgo (by show cur.depth + 1 ≤ 12; omega)
                have hb2 : out2.desc + (cur.depth + 1) ≤ 12 := hb.2
                subst hout
                refine ⟨hb.1, ?_⟩
                show out2.desc + 1 + cur.depth ≤ 12
                omega
          · rw [goFuel_badchild hd hnq hleaf hlen] at hg
            have h2 := Option.some.inj hg
            subst h2
            exact ⟨rfl, by show 0 + cur.depth ≤ 12; omega⟩

/-- C2 (amended): every call to `btree_query` terminates — the engine's
own fuel is sufficient: each iteration either fails on the depth guard
(checked at the top of every iteration, `-EFSCORRUPTED` once the depth
counter reaches 12), returns, ascends (strictly shortening the query
chain) or descends (incrementing the depth counter), and a measure over
the query chain strictly decreases on both ascent and descent.  The
claimed global bound of at most 12 descent steps holds in that form only
without `APFS_QUERY_MULTIPLE`: there every run performs no ascents and
at most `12 - depth` descents.  (In multiple mode re-descents after
backtracking can exceed 12 total descents; see the counterexample.) -/
theorem c2_btree_query_terminates (ctx : QCtx) (cur : Cursor) :
    (apfs_btree_query ctx cur).isSome = true ∧
    (12 ≤ cur.depth →
      apfs_btree_query ctx cur = some ⟨.error .depthLimit, 0, 0⟩ ∧
      QErr.isCorruption .depthLimit = true) ∧
    (ctx.multF = false → cur.depth ≤ 12 →
      ∀ out, apfs_btree_query ctx cur = some out →
        out.asc = 0 ∧ out.desc + cur.depth ≤ 12) := by
  refine ⟨?_, ?_, ?_⟩
  · show (goFuel ctx (chainMeasure (boundOf ctx.env) [cur] + 1) cur []).isSome = true
    exact goFuel_adequate ctx _ cur [] (Nat.lt_succ_self _)
  · intro hd
    constructor
    · show goFuel ctx (chainMeasure (boundOf ctx.env) [cur] + 1) cur [] =
        some ⟨.error .depthLimit, 0, 0⟩
      exact goFuel_depth hd
    · rfl
  · intro hmf hdep out hout
    have hout2 : goFuel ctx (chainMeasure (boundOf ctx.env) [cur] + 1) cur [] =
        some out := hout
    exact goFuel_single_bound hmf _ cur out hout2 hdep

/-- A single-record-mode context over an empty environment. -/
def c2sctx : QCtx := ⟨⟨[], []⟩, cmpOmap, true, false, ⟨5, 5, 0⟩⟩

/-- A query cursor already at the depth limit. -/
def c2scur : Cursor := ⟨⟨[], true⟩, 1, 0, 12⟩

theorem c2_witness :
    (apfs_btree_query c2sctx c2scur).isSome = true ∧
    (apfs_btree_query c2sctx c2scur = some ⟨.error .depthLimit, 0, 0⟩ ∧
      QErr.isCorruption .depthLimit = true) ∧
    ((⟨Except.error QErr.depthLimit, 0, 0⟩ : QOut).asc = 0 ∧
      (⟨Except.error QErr.depthLimit, 0, 0⟩ : QOut).desc + c2scur.depth ≤ 12) := by
  obtain ⟨h1, h2, h3⟩ := c2_btree_query_terminates c2sctx c2scur
  have h4 := h2 (by decide)
  exact ⟨h1, h4, h3 rfl (by decide) _ h4.1⟩

/-- Thirteen sibling records of a non-leaf root, each pointing at the
same dead-end child block 2. -/
def c2recs : List NRec :=
  (List.range 13).map (fun i => ⟨⟨i + 1, 0, 0⟩, le64bytes 2⟩)

/-- Disk: the root at block 1, an empty leaf at block 2. -/
def c2env : Env := ⟨[(1, ⟨c2recs, false⟩), (2, ⟨[], true⟩)], []⟩

/-- A multiple-mode omap query whose target sits above all 13 keys. -/
def c2ctx : QCtx := ⟨c2env, cmpOmap, true, true, ⟨100, 0, 0⟩⟩

/-- The root query seeded at the root node. -/
def c2cur : Cursor := ⟨⟨c2recs, false⟩, 1, 13, 0⟩

theorem c2_descents_exceed_12_cex :
    apfs_btree_query c2ctx c2cur = some ⟨.error QErr.nodata, 13, 13⟩ ∧
    ¬ 13 ≤ 12 := by
  constructor
  · decide
  · decide

/-! ## List and byte lemmas for the object-map write path -/

theorem getD_set_self {α : Type} (d : α) :
    ∀ (l : List α) (j : Nat) (a : α), j < l.length → (l.set j a).getD j d = a := by
  intro l
  induction l with
  | nil => intro j a h; simp at h
  | cons x t ih =>
    intro j a h
    cases j with
    | zero => rfl
    | succ m =>
      have h2 : m < t.length := by
        have h3 : m + 1 < t.length + 1 := by simpa [List.length_cons] using h
        omega
      exact ih m a h2

theorem getD_set_other {α : Type} (d : α) :
    ∀ (l : List α) (j k : Nat) (a : α), j ≠ k →
      (l.set j a).getD k d = l.getD k d := by
  intro l
  induction l with
  | nil => intro j k a h; rfl
  | cons x t ih =>
    intro j k a h
    cases j with
    | zero =>
      cases k with
      | zero => exact absurd rfl h
      | succ m => rfl
    | succ jm =>
      cases k with
      | zero => rfl
      | succ km => exact ih jm km a (fun he => h (by rw [he]))

theorem map_set_go {α β : Type} (f : α → β) :
    ∀ (l : List α) (j : Nat) (a : α),
      (l.set j a).map f = (l.map f).set j (f a) := by
  intro l
  induction l with
  | nil => intro j a; rfl
  | cons x t ih =>
    intro j a
    cases j with
    | zero => rfl
    | succ m =>
      show f x :: (t.set m a).map f = f x :: (t.map f).set m (f a)
      rw [ih]

theorem getD_map_go {α β : Type} (f : α → β) (d : α) :
    ∀ (l : List α) (j : Nat), (l.map f).getD j (f d) = f (l.getD j d) := by
  intro l
  induction l with
  | nil => intro j; rfl
  | cons x t ih =>
    intro j
    cases j with
    | zero => rfl
    | succ m => exact ih m

theorem omapRecs_length (t : OmapNode) : (omapRecs t).length = t.recs.length := by
  simp [omapRecs]

theorem omapRecs_getD (t : OmapNode) (j : Nat) :
    (omapRecs t).getD j defNRec =
      ⟨⟨(t.recs.getD j ⟨0, 0, []⟩).oid, (t.recs.getD j ⟨0, 0, []⟩).xid, 0⟩,
        (t.recs.getD j ⟨0, 0, []⟩).val⟩ :=
  getD_map_go (fun r : ORec => (⟨⟨r.oid, r.xid, 0⟩, r.val⟩ : NRec))
    (⟨0, 0, []⟩ : ORec) t.recs j

theorem r64_le64bytes {n : Nat} (h : n < 18446744073709551616) :
    r64 (listBlock (le64bytes n)) 0 = n := by
  show r64 (listBlock [n % 256, n / 256 % 256, n / 65536 % 256,
    n / 16777216 % 256, n / 4294967296 % 256, n / 1099511627776 % 256,
    n / 281474976710656 % 256, n / 72057594037927936 % 256]) 0 = n
  simp only [r64, r32, r16, listBlock, List.getD_cons_zero, List.getD_cons_succ]
  omega

/-- C8: `omap_lookup` with `want_write` on a root-and-leaf object map
whose node xid equals the current transaction xid: the target block is
reallocated copy-on-write, the found leaf record's key xid is
overwritten with the current transaction xid and its value paddr with
the new block number, the node's buffer is marked dirty with its
checksum to be recomputed, and the new block number is returned; a
subsequent lookup of the same oid at the current xid then returns the
new block number. -/
theorem c8_omap_cow (sxid : Nat) (tbl tbl2 : OmapNode) (id : Nat)
    (cow : Nat → Option Nat) (j nb : Nat)
    (hx : tbl.nodeXid = sxid)
    (hq : nqScan cmpOmap (omapRecs tbl) (apfs_init_omap_key id sxid)
      (omapRecs tbl).length = some j)
    (hlen : (tbl.recs.getD j ⟨0, 0, []⟩).val.length = 8)
    (hcow : cow (r64 (listBlock (tbl.recs.getD j ⟨0, 0, []⟩).val) 0) = some nb)
    (hnb : nb < 18446744073709551616)
    (htbl2 : tbl2 = { tbl with
      recs := tbl.recs.set j
        { tbl.recs.getD j ⟨0, 0, []⟩ with xid := sxid, val := le64bytes nb }
      dirty := true
      csum := true }) :
    apfs_omap_lookup_block sxid tbl id true cow = .ok (nb, tbl2) ∧
    apfs_omap_lookup_block sxid tbl2 id false cow = .ok (nb, tbl2) := by
  subst htbl2
  have hjlen : j < tbl.recs.length := by
    have h2 := (nqScan_lt hq).2
    rwa [omapRecs_length] at h2
  have hroot : apfs_btree_query
      ⟨⟨[], []⟩, cmpOmap, true, false, apfs_init_omap_key id sxid⟩
      ⟨omapNodeV tbl, tbl.blk, (omapRecs tbl).length, 0⟩ =
      some ⟨.ok (omapNodeV tbl, j), 0, 0⟩ := by
    unfold apfs_btree_query
    exact goFuel_leaf (show ¬ (12 : Nat) ≤ 0 by omega) hq rfl
  constructor
  · simp only [apfs_omap_lookup_block, hroot, hlen, hcow, ne_eq, not_true,
      if_false, ite_false, reduceIte]
  · have hr2 : ({ tbl with
        recs := tbl.recs.set j
          { tbl.recs.getD j ⟨0, 0, []⟩ with xid := sxid, val := le64bytes nb }
        dirty := true
        csum := true } : OmapNode).recs.getD j ⟨0, 0, []⟩ =
        { tbl.recs.getD j ⟨0, 0, []⟩ with xid := sxid, val := le64bytes nb } :=
      getD_set_self _ _ _ _ hjlen
    have homap2 : omapRecs { tbl with
        recs := tbl.recs.set j
          { tbl.recs.getD j ⟨0, 0, []⟩ with xid := sxid, val := le64bytes nb }
        dirty := true
        csum := true } =
        (omapRecs tbl).set j
          ⟨⟨(tbl.recs.getD j ⟨0, 0, []⟩).oid, sxid, 0⟩, le64bytes nb⟩ := by
      show (tbl.recs.set j
          { tbl.recs.getD j ⟨0, 0, []⟩ with xid := sxid, val := le64bytes nb }).map
          (fun r : ORec => (⟨⟨r.oid, r.xid, 0⟩, r.val⟩ : NRec)) = _
      rw [map_set_go]
      rfl
    have hkold : cmpOmap ⟨(tbl.recs.getD j ⟨0, 0, []⟩).oid,
        (tbl.recs.getD j ⟨0, 0, []⟩).xid, 0⟩ (apfs_init_omap_key id sxid) ≠
        Ordering.gt := by
      have hold := nqScan_found hq
      rwa [omapRecs_getD] at hold
    have hknew : cmpOmap ⟨(tbl.recs.getD j ⟨0, 0, []⟩).oid, sxid, 0⟩
        (apfs_init_omap_key id sxid) ≠ Ordering.gt := by
      unfold cmpOmap apfs_init_omap_key at hkold ⊢
      split_ifs at hkold ⊢ <;>
        first
          | exact hkold
          | exact absurd rfl hkold
          | omega
          | decide
    have hq2 : nqScan cmpOmap (omapRecs { tbl with
        recs := tbl.recs.set j
          { tbl.recs.getD j ⟨0, 0, []⟩ with xid := sxid, val := le64bytes nb }
        dirty := true
        csum := true }) (apfs_init_omap_key id sxid)
        (omapRecs { tbl with
          recs := tbl.recs.set j
            { tbl.recs.getD j ⟨0, 0, []⟩ with xid := sxid, val := le64bytes nb }
          dirty := true
          csum := true }).length = some j := by
      rw [homap2, List.length_set, omapRecs_length]
      apply nqScan_eq_some
      · exact hjlen
      · rw [List.length_set, omapRecs_length]
        exact hjlen
      · rw [getD_set_self _ _ _ _ (by rw [omapRecs_length]; exact hjlen)]
        exact hknew
      · intro k hk1 hk2 hk3
        rw [getD_set_other _ _ _ _ _ (by omega)]
        rw [List.length_set, omapRecs_length] at hk3
        exact nqScan_above hq k hk1 (by rw [omapRecs_length]; omega)
          (by rw [omapRecs_length]; exact hk3)
    have hroot2 : apfs_btree_query
        ⟨⟨[], []⟩, cmpOmap, true, false, apfs_init_omap_key id sxid⟩
        ⟨omapNodeV { tbl with
            recs := tbl.recs.set j
              { tbl.recs.getD j ⟨0, 0, []⟩ with xid := sxid, val := le64bytes nb }
            dirty := true
            csum := true },
          ({ tbl with
            recs := tbl.recs.set j
              { tbl.recs.getD j ⟨0, 0, []⟩ with xid := sxid, val := le64bytes nb }
            dirty := true
            csum := true } : OmapNode).blk,
          (omapRecs { tbl with
            recs := tbl.recs.set j
              { tbl.recs.getD j ⟨0, 0, []⟩ with xid := sxid, val := le64bytes nb }
            dirty := true
            csum := true }).length, 0⟩ =
        some ⟨.ok (omapNodeV { tbl with
          recs := tbl.recs.set j
            { tbl.recs.getD j ⟨0, 0, []⟩ with xid := sxid, val := le64bytes nb }
          dirty := true
          csum := true }, j), 0, 0⟩ := by
      unfold apfs_btree_query
      exact goFuel_leaf (show ¬ (12 : Nat) ≤ 0 by omega) hq2 rfl
    have hlen8 : (le64bytes nb).length = 8 := rfl
    simp only [apfs_omap_lookup_block, hroot2, hr2, hlen8, r64_le64bytes hnb,
      ne_eq, not_true, if_false, ite_false, reduceIte, Bool.false_eq_true]

/-- A two-record root-and-leaf object map fresh in transaction 300. -/
def c8tbl : OmapNode :=
  ⟨[⟨7, 100, le64bytes 1000⟩, ⟨7, 200, le64bytes 2000⟩], 300, 5, false, false⟩

/-- The copy-on-write oracle: the reallocation lands on block 3000. -/
def c8cow : Nat → Option Nat := fun _ => some 3000

/-- The map after the write: the found record now carries xid 300 and
paddr 3000, and the node buffer is dirty with a pending checksum. -/
def c8tbl2 : OmapNode :=
  ⟨[⟨7, 100, le64bytes 1000⟩, ⟨7, 300, le64bytes 3000⟩], 300, 5, true, true⟩

theorem c8_witness :
    apfs_omap_lookup_block 300 c8tbl 7 true c8cow = .ok (3000, c8tbl2) ∧
    apfs_omap_lookup_block 300 c8tbl2 7 false c8cow = .ok (3000, c8tbl2) :=
  c8_omap_cow 300 c8tbl c8tbl2 7 c8cow 1 3000 rfl (by decide) (by decide)
    (by decide) (by decide) (by decide)
